import Mathlib

/-!
# RouteGlyph route engine: shallow embedding and verification

This file embeds the core of the RouteGlyph route engine
(`packages/route-engine/src`: `graph.ts`, `scoring.ts`, `shortest-path.ts`,
`optimizers.ts`) in Lean 4 and settles the frozen claims about it.

Modelling conventions:
* JavaScript numbers are modelled as real numbers (`ℝ`); `Math.round` is
  `⌊x + 1/2⌋` (round half up), `Math.sqrt` is `Real.sqrt`, `Math.acos` is
  `Real.arccos`, `Math.PI` is `Real.pi`.
* A JavaScript `Map` is modelled as an insertion-ordered association list;
  `Map.set` on an existing key updates the value in place (keeping the
  original insertion position), otherwise appends, exactly like `Map`.
* `Array.prototype.sort` with comparator `(a, b) => a.cost - b.cost` is
  modelled as a stable insertion sort on the cost projection (JS sort is
  stable per ES2019).
* The `while` loop of the in-memory search and the back-pointer walk of the
  path reconstruction are modelled with an explicit iteration budget
  (`fuel`); the value `none` means the budget was exhausted while the loop
  was still iterating, `some r` is the value the program produces.
* A thrown `Error` is modelled as an `Except` error value carrying the data
  embedded in the message string.
* Optional (`?`) fields and `undefined` are modelled with `Option`;
  JavaScript truthiness of an optional number (`!x`, `x && _`, `x ?? d`)
  is modelled field-by-field where it occurs (note `0` is falsy).
-/

namespace RouteGlyph

/-- Insertion-ordered association-list model of a JavaScript `Map`. -/
abbrev KMap (κ α : Type) := List (κ × α)

/-- `Map.get`: value of the first entry with the given key. -/
def mapGet {κ α : Type} [DecidableEq κ] : KMap κ α → κ → Option α
  | [], _ => none
  | p :: rest, k => if p.1 = k then some p.2 else mapGet rest k

/-- `Map.set`: update in place when the key is present (JS `Map` keeps the
original insertion position), otherwise append a new entry. -/
def mapSet {κ α : Type} [DecidableEq κ] : KMap κ α → κ → α → KMap κ α
  | [], k, v => [(k, v)]
  | p :: rest, k, v => if p.1 = k then (k, v) :: rest else p :: mapSet rest k v

/-- `Map.values()` in insertion order. -/
def mapValues {κ α : Type} (m : KMap κ α) : List α := m.map Prod.snd

/-- `new Map(pairs)`: sequential insertion of all pairs. -/
def mapFromList {κ α : Type} [DecidableEq κ] (pairs : List (κ × α)) : KMap κ α :=
  pairs.foldl (fun m p => mapSet m p.1 p.2) []

/-- `{lat, lon}` in degrees (`packages/domain`, `Coordinate`). -/
structure Coordinate where
  lat : ℝ
  lon : ℝ

/-- `RoadNode` from `graph.ts`. -/
structure RoadNode where
  id : String
  coordinate : Coordinate
  elevationMeters : Option ℝ := none

/-- `RoadEdge` from `graph.ts`.  `trafficStress` is `1 | 2 | 3 | 4 | 5` in
TypeScript; we use `ℕ` (the claims do not depend on the range). -/
structure RoadEdge where
  id : String
  fromNodeId : String
  toNodeId : String
  streetName : String
  lengthMeters : ℝ
  bidirectional : Bool
  hasSidewalk : Bool
  litAtNight : Bool
  trafficStress : ℕ
  elevationGainMeters : ℝ

/-- `TraversableEdge` from `graph.ts`: a directed materialization of a
`RoadEdge`.  `fromCoordinate`/`toCoordinate` are optional and are not set by
`createRoadGraph`. -/
structure TraversableEdge where
  edgeId : String
  fromNodeId : String
  toNodeId : String
  lengthMeters : ℝ
  streetName : String
  hasSidewalk : Bool
  litAtNight : Bool
  trafficStress : ℕ
  elevationGainMeters : ℝ
  fromCoordinate : Option Coordinate := none
  toCoordinate : Option Coordinate := none

/-- `RoadGraph` from `graph.ts`. -/
structure RoadGraph where
  nodes : KMap String RoadNode
  edges : KMap String RoadEdge
  traversableFrom : KMap String (List TraversableEdge)

/-- `Math.round`: round half toward positive infinity. -/
noncomputable def jsRound (x : ℝ) : ℤ := ⌊x + 1 / 2⌋

/-- `distanceMeters` from `graph.ts`: equirectangular approximation
(`dLat*111000`, `dLon*85000`, Euclidean norm), rounded to whole meters. -/
noncomputable def distanceMeters (a b : Coordinate) : ℝ :=
  let dx := (a.lat - b.lat) * 111000
  let dy := (a.lon - b.lon) * 85000
  (jsRound (Real.sqrt (dx * dx + dy * dy)) : ℝ)

/-- The forward `TraversableEdge` built from a `RoadEdge` in
`createRoadGraph`. -/
def forwardEdge (edge : RoadEdge) : TraversableEdge :=
  { edgeId := edge.id
    fromNodeId := edge.fromNodeId
    toNodeId := edge.toNodeId
    lengthMeters := edge.lengthMeters
    streetName := edge.streetName
    hasSidewalk := edge.hasSidewalk
    litAtNight := edge.litAtNight
    trafficStress := edge.trafficStress
    elevationGainMeters := edge.elevationGainMeters }

/-- The reverse `TraversableEdge` built from a bidirectional `RoadEdge` in
`createRoadGraph`: endpoints swapped, elevation gain negated, all other
fields copied. -/
def reverseEdge (edge : RoadEdge) : TraversableEdge :=
  { forwardEdge edge with
    fromNodeId := edge.toNodeId
    toNodeId := edge.fromNodeId
    elevationGainMeters := -edge.elevationGainMeters }

/-- Append a traversable edge to the adjacency bucket of its `fromNodeId`
(the `existing.push / set` pattern in `createRoadGraph`). -/
def addTraversable (m : KMap String (List TraversableEdge)) (t : TraversableEdge) :
    KMap String (List TraversableEdge) :=
  mapSet m t.fromNodeId ((mapGet m t.fromNodeId).getD [] ++ [t])

/-- The adjacency index built by the edge loop of `createRoadGraph`. -/
def buildAdjacency (edges : List RoadEdge) : KMap String (List TraversableEdge) :=
  edges.foldl
    (fun m edge =>
      let m1 := addTraversable m (forwardEdge edge)
      if edge.bidirectional then addTraversable m1 (reverseEdge edge) else m1)
    []

/-- `createRoadGraph` from `graph.ts`. -/
def createRoadGraph (nodes : List RoadNode) (edges : List RoadEdge) : RoadGraph :=
  { nodes := mapFromList (nodes.map (fun node => (node.id, node)))
    edges := mapFromList (edges.map (fun edge => (edge.id, edge)))
    traversableFrom := buildAdjacency edges }

/-- Error thrown by `findNearestNodeId` ("Graph has no nodes."). -/
inductive GraphError where
  | emptyGraph
  deriving DecidableEq

/-- The loop body of `findNearestNodeId`: strict improvement over the best
distance so far (`none` models the initial `Infinity`, which every real
distance beats). -/
noncomputable def nearestStep (coordinate : Coordinate)
    (acc : String × Option ℝ) (node : RoadNode) : String × Option ℝ :=
  let distance := distanceMeters node.coordinate coordinate
  match acc.2 with
  | none => (node.id, some distance)
  | some bestDistance =>
    if distance < bestDistance then (node.id, some distance) else acc

/-- `findNearestNodeId` from `graph.ts`: linear scan with strict improvement,
starting from `bestNodeId = ""` and `bestDistance = Infinity`, throwing when
the final `bestNodeId` is the falsy `""`. -/
noncomputable def findNearestNodeId (graph : RoadGraph) (coordinate : Coordinate) :
    Except GraphError String :=
  let best := (mapValues graph.nodes).foldl (nearestStep coordinate) ("", none)
  if best.1 = "" then Except.error GraphError.emptyGraph else Except.ok best.1

/-- `RouteObjectiveWeights` from `scoring.ts`. -/
structure RouteObjectiveWeights where
  distance : ℝ
  elevation : ℝ
  turns : ℝ
  safety : ℝ
  uTurn : ℝ

/-- `DEFAULT_ROUTE_OBJECTIVE_WEIGHTS` from `scoring.ts`. -/
noncomputable def DEFAULT_ROUTE_OBJECTIVE_WEIGHTS : RouteObjectiveWeights :=
  { distance := 1.0, elevation := 0.25, turns := 0.4, safety := 0.9, uTurn := 1.2 }

/-- `scoreEdgeTraversal` from `scoring.ts`. -/
noncomputable def scoreEdgeTraversal (edge : TraversableEdge)
    (weights : RouteObjectiveWeights) : ℝ :=
  let safetyPenalty :=
    ((edge.trafficStress : ℝ) - 1) * 0.35 + (if edge.hasSidewalk then 0 else 0.7) +
      (if edge.litAtNight then 0 else 0.2)
  edge.lengthMeters * weights.distance +
    max 0 edge.elevationGainMeters * weights.elevation +
    safetyPenalty * 100 * weights.safety

/-- `angleBetweenDegrees` from `scoring.ts`: angle at `b` between the vectors
`b → a` and `b → c`, via the clamped dot-product/arccosine formula. -/
noncomputable def angleBetweenDegrees (a b c : Coordinate) : ℝ :=
  let v1x := a.lon - b.lon
  let v1y := a.lat - b.lat
  let v2x := c.lon - b.lon
  let v2y := c.lat - b.lat
  let dot := v1x * v2x + v1y * v2y
  let mag1 := Real.sqrt (v1x * v1x + v1y * v1y)
  let mag2 := Real.sqrt (v2x * v2x + v2y * v2y)
  if mag1 = 0 ∨ mag2 = 0 then 0
  else Real.arccos (max (-1) (min 1 (dot / (mag1 * mag2)))) * 180 / Real.pi

/-- `scoreTurn` from `scoring.ts`. -/
noncomputable def scoreTurn (previousCoordinate currentCoordinate nextCoordinate : Coordinate)
    (weights : RouteObjectiveWeights) : ℝ :=
  let angle := angleBetweenDegrees previousCoordinate currentCoordinate nextCoordinate
  let bendPenalty := angle / 180 * 100 * weights.turns
  bendPenalty + (if angle > 165 then 100 * weights.uTurn else 0)

/-- `PathResult` from `shortest-path.ts`. -/
structure PathResult where
  nodeIds : List String
  traversedEdges : List TraversableEdge
  totalDistanceMeters : ℝ
  totalCost : ℝ

/-- `PathState` from `shortest-path.ts`. -/
structure PathState where
  key : String
  nodeId : String
  previousNodeId : Option String
  cost : ℝ
  distanceMeters : ℝ
  parentKey : Option String
  viaEdge : Option TraversableEdge

/-- `createKey` from `shortest-path.ts`. -/
def createKey (nodeId : String) (previousNodeId : Option String) : String :=
  nodeId ++ "|" ++ previousNodeId.getD "start"

/-- The back-pointer walk of `reconstructPath` (its `while` loop), with an
explicit iteration budget.  Returns the list of states from the final state
back to the start state, in walk order (the code's `reversed`). -/
def reconstructChain (stateMap : KMap String PathState) :
    ℕ → Option String → List PathState
  | 0, _ => []
  | _, none => []
  | fuel + 1, some currentKey =>
    match mapGet stateMap currentKey with
    | none => []
    | some state => state :: reconstructChain stateMap fuel state.parentKey

/-- `reconstructPath` from `shortest-path.ts`.  The `fuel` argument bounds the
back-pointer walk; `findPath` passes a bound that always suffices. -/
def reconstructPath (stateMap : KMap String PathState) (finalKey : String)
    (fuel : ℕ) : PathResult :=
  let states := (reconstructChain stateMap fuel (some finalKey)).reverse
  { nodeIds := states.map (fun state => state.nodeId)
    traversedEdges := states.filterMap (fun state => state.viaEdge)
    totalDistanceMeters := (states.getLast?.map (fun state => state.distanceMeters)).getD 0
    totalCost := (states.getLast?.map (fun state => state.cost)).getD 0 }

/-- Stable insertion of a state into a cost-sorted list: a tie keeps the
existing element first, matching JavaScript's stable sort. -/
noncomputable def insertByCost (x : PathState) : List PathState → List PathState
  | [] => [x]
  | y :: ys => if x.cost ≤ y.cost then x :: y :: ys else y :: insertByCost x ys

/-- `open.sort((a, b) => a.cost - b.cost)`: stable sort by ascending cost. -/
noncomputable def sortByCost (l : List PathState) : List PathState :=
  l.foldr insertByCost []

/-- The error thrown by `InMemoryShortestPathAdapter.findPath`
("No path found between nodes '…' and '…'."), carrying both endpoints. -/
inductive SearchError where
  | noPath (startNodeId endNodeId : String)
  deriving DecidableEq

/-- The cost increment a relaxation step adds on top of the popped state's
cumulative cost: the edge-traversal score, plus the turn score when the
popped state has a predecessor and all three node coordinates resolve
(`if (current.previousNodeId) { … if (previous && at && next) … }`). -/
noncomputable def relaxCost (graph : RoadGraph) (weights : RouteObjectiveWeights)
    (current : PathState) (edge : TraversableEdge) : ℝ :=
  match current.previousNodeId with
  | none => scoreEdgeTraversal edge weights
  | some previousId =>
    match mapGet graph.nodes previousId, mapGet graph.nodes current.nodeId,
        mapGet graph.nodes edge.toNodeId with
    | some previous, some atNode, some next =>
      scoreEdgeTraversal edge weights +
        scoreTurn previous.coordinate atNode.coordinate next.coordinate weights
    | _, _, _ => scoreEdgeTraversal edge weights

/-- The state object pushed by a successful relaxation (`nextState` in the
loop body of `findPath`). -/
noncomputable def pushedState (graph : RoadGraph) (weights : RouteObjectiveWeights)
    (current : PathState) (edge : TraversableEdge) : PathState :=
  { key := createKey edge.toNodeId (some current.nodeId)
    nodeId := edge.toNodeId
    previousNodeId := some current.nodeId
    cost := current.cost + relaxCost graph weights current edge
    distanceMeters := current.distanceMeters + edge.lengthMeters
    parentKey := some current.key
    viaEdge := some edge }

/-- The body of the `for (const edge of outgoing)` loop of `findPath`:
relax one outgoing edge of the popped state `current`.  The accumulator is
`(bestCostByState, stateMap, newly pushed states)`; pushed states are
appended to the frontier after the loop (JS pushes during iteration, which
is equivalent because the frontier is re-sorted before the next pop). -/
noncomputable def relaxEdge (graph : RoadGraph) (weights : RouteObjectiveWeights)
    (current : PathState)
    (acc : KMap String ℝ × KMap String PathState × List PathState)
    (edge : TraversableEdge) :
    KMap String ℝ × KMap String PathState × List PathState :=
  let nextKey := createKey edge.toNodeId (some current.nodeId)
  let nextCost := current.cost + relaxCost graph weights current edge
  let nextState := pushedState graph weights current edge
  let push :=
    (mapSet acc.1 nextKey nextCost, mapSet acc.2.1 nextKey nextState,
      acc.2.2 ++ [nextState])
  match mapGet acc.1 nextKey with
  | some knownBest => if knownBest ≤ nextCost then acc else push
  | none => push

/-- The `while (open.length > 0)` loop of `findPath`, with an explicit
iteration budget (`none` = budget exhausted while still looping). -/
noncomputable def searchLoop (graph : RoadGraph) (weights : RouteObjectiveWeights)
    (startNodeId endNodeId : String) :
    ℕ → List PathState → KMap String ℝ → KMap String PathState →
    Option (Except SearchError PathResult)
  | 0, _, _, _ => none
  | fuel + 1, openStates, bestCostByState, stateMap =>
    match sortByCost openStates with
    | [] => some (Except.error (SearchError.noPath startNodeId endNodeId))
    | current :: rest =>
      if current.nodeId = endNodeId then
        some (Except.ok (reconstructPath stateMap current.key (stateMap.length + 1)))
      else
        let outgoing := (mapGet graph.traversableFrom current.nodeId).getD []
        let step := outgoing.foldl (relaxEdge graph weights current)
          (bestCostByState, stateMap, [])
        searchLoop graph weights startNodeId endNodeId fuel
          (rest ++ step.2.2) step.1 step.2.1

/-- `InMemoryShortestPathAdapter.findPath` from `shortest-path.ts`. -/
noncomputable def findPath (fuel : ℕ) (graph : RoadGraph)
    (startNodeId endNodeId : String) (weights : RouteObjectiveWeights) :
    Option (Except SearchError PathResult) :=
  let start : PathState :=
    { key := createKey startNodeId none
      nodeId := startNodeId
      previousNodeId := none
      cost := 0
      distanceMeters := 0
      parentKey := none
      viaEdge := none }
  searchLoop graph weights startNodeId endNodeId fuel [start]
    (mapSet [] start.key 0) (mapSet [] start.key start)

/-- The two coverage strategies (`"target_streets" | "alphabet"`). -/
inductive Strategy where
  | target_streets
  | alphabet
  deriving DecidableEq

/-- The optional `area` block of a `CoverageRouteRequest`. -/
structure Area where
  center : Coordinate
  radiusMeters : ℝ

/-- `CoverageRouteRequest` from `packages/domain`. -/
structure CoverageRouteRequest where
  name : String
  targetStreets : List String
  start : Coordinate
  strategy : Option Strategy := none
  maxDistanceMeters : Option ℝ := none
  alphabet : Option (List String) := none
  area : Option Area := none

/-- `RouteSegment` from `packages/domain` (`from`/`to` renamed, `from` is a
Lean keyword). -/
structure RouteSegment where
  fromCoord : Coordinate
  toCoord : Coordinate
  streetName : Option String

/-- The `ALPHABET` constant of `optimizers.ts` (`"ABC….split("")`), as the
list of its characters. -/
def ALPHABET : List Char := "ABCDEFGHIJKLMNOPQRSTUVWXYZ".toList

/-- `dedupeConsecutive` from `optimizers.ts`. -/
def dedupeConsecutive (items : List String) : List String :=
  (items.foldl
    (fun (acc : List String × Option String) item =>
      match acc.2 with
      | some previous => if item = previous then acc else (acc.1 ++ [item], some item)
      | none => (acc.1 ++ [item], some item))
    ([], none)).1

/-- `resolveCoordinate` from `optimizers.ts`. -/
def resolveCoordinate (graph : RoadGraph) (nodeId : String)
    (fallback : Option Coordinate) : Option Coordinate :=
  match mapGet graph.nodes nodeId with
  | some node => some node.coordinate
  | none => fallback

/-- `traversalsToSegments` from `optimizers.ts`: edges whose endpoint
coordinates cannot be resolved are skipped. -/
def traversalsToSegments (graph : RoadGraph) (traversals : List TraversableEdge) :
    List RouteSegment :=
  traversals.filterMap (fun edge =>
    match resolveCoordinate graph edge.fromNodeId edge.fromCoordinate,
        resolveCoordinate graph edge.toNodeId edge.toCoordinate with
    | some f, some t =>
      some { fromCoord := f, toCoord := t, streetName := some edge.streetName }
    | _, _ => none)

/-- `distanceOf` from `optimizers.ts`: sum of traversed edge lengths. -/
noncomputable def distanceOf (edges : List TraversableEdge) : ℝ :=
  (edges.map (fun edge => edge.lengthMeters)).sum

/-- `approximateDistanceMeters` from `optimizers.ts` (same equirectangular
formula as `distanceMeters` in `graph.ts`). -/
noncomputable def approximateDistanceMeters (a b : Coordinate) : ℝ :=
  let dx := (a.lat - b.lat) * 111000
  let dy := (a.lon - b.lon) * 85000
  (jsRound (Real.sqrt (dx * dx + dy * dy)) : ℝ)

/-- `approximateNodeDistanceMeters` from `optimizers.ts` (0 when either node
is missing). -/
noncomputable def approximateNodeDistanceMeters (graph : RoadGraph)
    (fromId toId : String) : ℝ :=
  match mapGet graph.nodes fromId, mapGet graph.nodes toId with
  | some fromNode, some toNode =>
    approximateDistanceMeters fromNode.coordinate toNode.coordinate
  | _, _ => 0

/-- `firstLetter` from `optimizers.ts`: first character of the uppercased
street name that falls in `A`–`Z`. -/
def firstLetter (name : String) : Option Char :=
  (name.toList.map Char.toUpper).find? (fun ch => 'A' ≤ ch && ch ≤ 'Z')

/-- Keep the first occurrence of each element (JS `new Set(list)` iteration
order). -/
def dedupPreservingFirst (l : List Char) : List Char :=
  l.foldl (fun acc c => if acc.contains c then acc else acc ++ [c]) []

/-- `normalizeAlphabet` from `optimizers.ts`: an empty or missing input falls
back to the full alphabet; entries are mapped to their first letter and
deduplicated. -/
def normalizeAlphabet (input : Option (List String)) : List Char :=
  let requested : List Char :=
    match input with
    | some l => if l.length ≠ 0 then l.filterMap firstLetter else ALPHABET
    | none => ALPHABET
  dedupPreservingFirst requested

/-- `chooseCoverageStrategy` from `optimizers.ts`. -/
def chooseCoverageStrategy (request : CoverageRouteRequest) : Strategy :=
  match request.strategy with
  | some s => s
  | none =>
    if request.targetStreets.length > 0 then Strategy.target_streets
    else Strategy.alphabet

/-- Lowercased character list of a string (JS `toLowerCase()`; the claims
only involve ASCII names). -/
def lowerChars (s : String) : List Char := s.toList.map Char.toLower

/-- `needle` occurs at the start of `haystack`. -/
def charListAtStart : List Char → List Char → Bool
  | [], _ => true
  | _ :: _, [] => false
  | a :: as, b :: bs => a == b && charListAtStart as bs

/-- JS `String.prototype.includes`: `needle` occurs somewhere in
`haystack`. -/
def charListHas (haystack needle : List Char) : Bool :=
  match haystack with
  | [] => needle.isEmpty
  | _ :: rest => charListAtStart needle haystack || charListHas rest needle

/-- `matchesTargetStreet` from `optimizers.ts`: an empty target list matches
every edge; otherwise case-insensitive substring match. -/
def matchesTargetStreet (edge : TraversableEdge) (targets : List String) : Bool :=
  if targets.length = 0 then true
  else targets.any (fun target =>
    charListHas (lowerChars edge.streetName) (lowerChars target))

/-- `uniqueEdges` from `optimizers.ts`: all traversable edges of the
adjacency index, deduplicated by `from->to->edgeId`. -/
def uniqueEdges (graph : RoadGraph) : List TraversableEdge :=
  ((mapValues graph.traversableFrom).flatten.foldl
    (fun (acc : List String × List TraversableEdge) edge =>
      let key := edge.fromNodeId ++ "->" ++ edge.toNodeId ++ "->" ++ edge.edgeId
      if acc.1.contains key then acc else (acc.1 ++ [key], acc.2 ++ [edge]))
    ([], [])).2

/-- The letter-frequency table of `optimizeCoverageRoute` (`letterFrequency`
loop). -/
def buildLetterFrequency (allEdges : List TraversableEdge) : KMap Char ℕ :=
  allEdges.foldl
    (fun m edge =>
      match firstLetter edge.streetName with
      | none => m
      | some letter => mapSet m letter ((mapGet m letter).getD 0 + 1))
    []

/-- The ranking score of `shortlistCandidates` in `optimizers.ts`. -/
noncomputable def candidateScore (graph : RoadGraph)
    (currentNodeId startNodeId : String) (strategy : Strategy)
    (letterFrequency : KMap Char ℕ) (usedStreetNames : KMap (List Char) ℕ)
    (edge : TraversableEdge) : ℝ :=
  approximateNodeDistanceMeters graph currentNodeId edge.fromNodeId +
    edge.lengthMeters +
    approximateNodeDistanceMeters graph edge.toNodeId startNodeId -
    (if strategy = Strategy.alphabet then
      400 / max 1
        ((((firstLetter edge.streetName).bind
          (fun c => mapGet letterFrequency c)).getD 1 : ℕ) : ℝ)
    else 0) +
    (((mapGet usedStreetNames (lowerChars edge.streetName)).getD 0 : ℕ) : ℝ) * 120

/-- Stable insertion of a scored candidate into an ascending list. -/
noncomputable def insertScored (x : TraversableEdge × ℝ) :
    List (TraversableEdge × ℝ) → List (TraversableEdge × ℝ)
  | [] => [x]
  | y :: ys => if x.2 ≤ y.2 then x :: y :: ys else y :: insertScored x ys

/-- Stable sort of scored candidates by ascending score (JS stable sort). -/
noncomputable def sortScored (l : List (TraversableEdge × ℝ)) :
    List (TraversableEdge × ℝ) :=
  l.foldr insertScored []

/-- `shortlistCandidates` from `optimizers.ts`: rank by score ascending and
keep the best 20. -/
noncomputable def shortlistCandidates (graph : RoadGraph)
    (currentNodeId startNodeId : String) (strategy : Strategy)
    (letterFrequency : KMap Char ℕ) (usedStreetNames : KMap (List Char) ℕ)
    (candidates : List TraversableEdge) : List TraversableEdge :=
  ((sortScored (candidates.map (fun edge =>
    (edge, candidateScore graph currentNodeId startNodeId strategy
      letterFrequency usedStreetNames edge)))).take 20).map Prod.fst

/-- `withinDistanceBudget` from `optimizers.ts`.  `!maxDistanceMeters` is
true both for a missing cap and for a cap of `0` (JS falsiness). -/
noncomputable def withinDistanceBudget (graph : RoadGraph)
    (currentDistanceMeters : ℝ) (edge : TraversableEdge)
    (currentNodeId startNodeId : String) (maxDistanceMeters : Option ℝ) : Bool :=
  match maxDistanceMeters with
  | none => true
  | some m =>
    if m = 0 then true
    else
      decide (currentDistanceMeters +
        approximateNodeDistanceMeters graph currentNodeId edge.fromNodeId +
        edge.lengthMeters +
        approximateNodeDistanceMeters graph edge.toNodeId startNodeId ≤ m)

/-- `calculateCoverageQualityMetrics` from `optimizers.ts`. -/
structure CoverageQualityMetrics where
  estimatedElevationGainMeters : ℤ
  duplicateStreetPenalty : ℕ
  uniqueStreetCount : ℕ

/-- The per-street occurrence table of `calculateCoverageQualityMetrics`. -/
def streetCounts (edges : List TraversableEdge) : KMap (List Char) ℕ :=
  edges.foldl
    (fun m edge =>
      let key := lowerChars edge.streetName
      mapSet m key ((mapGet m key).getD 0 + 1))
    []

/-- `calculateCoverageQualityMetrics` from `optimizers.ts`. -/
noncomputable def calculateCoverageQualityMetrics (edges : List TraversableEdge) :
    CoverageQualityMetrics :=
  { estimatedElevationGainMeters :=
      jsRound ((edges.map (fun edge => max 0 edge.elevationGainMeters)).sum)
    duplicateStreetPenalty :=
      ((mapValues (streetCounts edges)).map (fun count => count - 1)).sum
    uniqueStreetCount := (streetCounts edges).length }

/-- The `alphabetSelectionCap` of `optimizeCoverageRoute`:
`Math.max(6, Math.min(14, Math.floor((maxDistanceMeters ?? 8000) / 800)))`.
Note `??` keeps an explicit `0`. -/
noncomputable def alphabetSelectionCap (maxDistanceMeters : Option ℝ) : ℤ :=
  max 6 (min 14 ⌊(maxDistanceMeters.getD 8000) / 800⌋)

/-- The `maxSelections` of `optimizeCoverageRoute`.  For target-street mode,
`targetStreetNames.length || 3` is `3` when the list is empty (JS
falsiness). -/
noncomputable def maxSelections (strategy : Strategy) (targetLetters : List Char)
    (targetStreetNames : List String) (maxDistanceMeters : Option ℝ) : ℤ :=
  match strategy with
  | Strategy.alphabet =>
    max 1 (min (targetLetters.length : ℤ) (alphabetSelectionCap maxDistanceMeters))
  | Strategy.target_streets =>
    max 3 (if targetStreetNames.length = 0 then 3 else (targetStreetNames.length : ℤ))

/-- The mutable selection state of the greedy loop of
`optimizeCoverageRoute`. -/
structure CovState where
  currentNodeId : String
  currentDistanceMeters : ℝ
  traversed : List TraversableEdge
  coveredLetters : List Char
  matchedStreetCount : ℕ
  usedStreetNames : KMap (List Char) ℕ
  remaining : List Char

/-- The `maxDistanceMeters && projectedDistance > maxDistanceMeters` break
condition (a cap of `0` is falsy and never breaks). -/
def overBudgetBreak (maxDistanceMeters : Option ℝ) (projected : ℝ) : Prop :=
  match maxDistanceMeters with
  | none => False
  | some m => ¬m = 0 ∧ projected > m

noncomputable instance (m : Option ℝ) (p : ℝ) : Decidable (overBudgetBreak m p) := by
  unfold overBudgetBreak
  cases m <;> infer_instance

/-- The greedy anchor-selection `for` loop of `optimizeCoverageRoute`
(`for (let i = 0; i < maxSelections; i += 1)`), as a recursion on the number
of remaining selections.  `fuel` is the iteration budget of the inner
shortest-path searches. -/
noncomputable def coverageLoop (fuel : ℕ) (graph : RoadGraph) (startNodeId : String)
    (allEdges : List TraversableEdge) (strategy : Strategy)
    (targetStreetNames : List String) (maxDistanceMeters : Option ℝ)
    (letterFrequency : KMap Char ℕ) :
    ℕ → CovState → Option (Except SearchError CovState)
  | 0, st => some (Except.ok st)
  | n + 1, st =>
    let candidates := allEdges.filter (fun edge =>
      match strategy with
      | Strategy.alphabet =>
        match firstLetter edge.streetName with
        | some letter => st.remaining.contains letter
        | none => false
      | Strategy.target_streets => matchesTargetStreet edge targetStreetNames)
    if candidates.length = 0 then some (Except.ok st)
    else
      let shortlisted := shortlistCandidates graph st.currentNodeId startNodeId
        strategy letterFrequency st.usedStreetNames candidates
      match shortlisted.find? (fun edge =>
        withinDistanceBudget graph st.currentDistanceMeters edge
          st.currentNodeId startNodeId maxDistanceMeters) with
      | none => some (Except.ok st)
      | some selectedEdge =>
        match findPath fuel graph st.currentNodeId selectedEdge.fromNodeId
            DEFAULT_ROUTE_OBJECTIVE_WEIGHTS with
        | none => none
        | some (Except.error e) => some (Except.error e)
        | some (Except.ok toStart) =>
          let projected := st.currentDistanceMeters + toStart.totalDistanceMeters +
            selectedEdge.lengthMeters
          if overBudgetBreak maxDistanceMeters projected then some (Except.ok st)
          else
            let traversed := st.traversed ++ toStart.traversedEdges
            let streetKey := lowerChars selectedEdge.streetName
            let letterUpdate :=
              match firstLetter selectedEdge.streetName with
              | some letter =>
                ((if st.coveredLetters.contains letter then st.coveredLetters
                  else st.coveredLetters ++ [letter]), st.remaining.erase letter)
              | none => (st.coveredLetters, st.remaining)
            coverageLoop fuel graph startNodeId allEdges strategy
              targetStreetNames maxDistanceMeters letterFrequency n
              { currentNodeId := selectedEdge.fromNodeId
                currentDistanceMeters := distanceOf traversed
                traversed := traversed
                coveredLetters := letterUpdate.1
                matchedStreetCount := st.matchedStreetCount +
                  (if matchesTargetStreet selectedEdge targetStreetNames then 1 else 0)
                usedStreetNames := mapSet st.usedStreetNames streetKey
                  ((mapGet st.usedStreetNames streetKey).getD 0 + 1)
                remaining := letterUpdate.2 }

/-- The `!maxDistanceMeters || currentDistanceMeters + return ≤ max`
condition under which the return path is appended (a cap of `0` is falsy,
so a `0` cap always appends). -/
def appendReturn (maxDistanceMeters : Option ℝ) (total : ℝ) : Prop :=
  match maxDistanceMeters with
  | none => True
  | some m => m = 0 ∨ total ≤ m

noncomputable instance (m : Option ℝ) (t : ℝ) : Decidable (appendReturn m t) := by
  unfold appendReturn
  cases m <;> infer_instance

/-- The coverage metadata block of a generated route. -/
structure CoverageMetadata where
  strategy : Strategy
  lettersCovered : List Char
  lettersRequested : List Char
  matchedStreetCount : ℕ
  maxDistanceMeters : Option ℝ
  estimatedElevationGainMeters : ℤ
  duplicateStreetPenalty : ℕ
  uniqueStreetCount : ℕ

/-- A `GeneratedRoute` minus its `id` and `createdAtIso` fields, which the
code derives from the wall clock (`Date.now()` / `new Date()`) and which the
claims explicitly exclude. -/
structure GeneratedRouteCore where
  mode : String
  name : String
  distanceMeters : ℝ
  segments : List RouteSegment
  coverage : Option CoverageMetadata

/-- Errors that propagate out of `optimizeCoverageRoute`: the
`findNearestNodeId` throw and un-caught shortest-path throws. -/
inductive OptimizerError where
  | graphError (e : GraphError)
  | searchError (e : SearchError)
  deriving DecidableEq

/-- Stable character insertion for `[...coveredLetters].sort()`. -/
def insertChar (c : Char) : List Char → List Char
  | [] => [c]
  | d :: ds => if c ≤ d then c :: d :: ds else d :: insertChar c ds

/-- JS default sort of single-character strings: ascending code-point
order. -/
def sortChars (l : List Char) : List Char := l.foldr insertChar []

/-- `optimizeCoverageRoute` from `optimizers.ts`, on the code path the
claims exercise: an externally supplied graph, the in-memory shortest-path
adapter, and no street-catalog provider (so the catalog block and the seed
graph construction are not entered). -/
noncomputable def optimizeCoverageRoute (fuel : ℕ) (request : CoverageRouteRequest)
    (graph : RoadGraph) : Option (Except OptimizerError GeneratedRouteCore) :=
  let strategy := chooseCoverageStrategy request
  match findNearestNodeId graph request.start with
  | Except.error e => some (Except.error (OptimizerError.graphError e))
  | Except.ok startNodeId =>
    let allEdges := uniqueEdges graph
    let targetLetters := normalizeAlphabet request.alphabet
    let targetStreetNames := request.targetStreets
    let maxDistanceMeters := request.maxDistanceMeters
    let letterFrequency := buildLetterFrequency allEdges
    let initial : CovState :=
      { currentNodeId := startNodeId
        currentDistanceMeters := 0
        traversed := []
        coveredLetters := []
        matchedStreetCount := 0
        usedStreetNames := []
        remaining := targetLetters }
    match coverageLoop fuel graph startNodeId allEdges strategy targetStreetNames
        maxDistanceMeters letterFrequency
        (maxSelections strategy targetLetters targetStreetNames maxDistanceMeters).toNat
        initial with
    | none => none
    | some (Except.error e) => some (Except.error (OptimizerError.searchError e))
    | some (Except.ok st) =>
      match findPath fuel graph st.currentNodeId startNodeId
          DEFAULT_ROUTE_OBJECTIVE_WEIGHTS with
      | none => none
      | some (Except.error e) => some (Except.error (OptimizerError.searchError e))
      | some (Except.ok returnPath) =>
        let traversed :=
          if appendReturn maxDistanceMeters
              (st.currentDistanceMeters + returnPath.totalDistanceMeters) then
            st.traversed ++ returnPath.traversedEdges
          else st.traversed
        let quality := calculateCoverageQualityMetrics traversed
        some (Except.ok
          { mode := "coverage"
            name := request.name
            distanceMeters := distanceOf traversed
            segments := traversalsToSegments graph traversed
            coverage := some
              { strategy := strategy
                lettersCovered := sortChars st.coveredLetters
                lettersRequested :=
                  if strategy = Strategy.alphabet then targetLetters else []
                matchedStreetCount := st.matchedStreetCount
                maxDistanceMeters := maxDistanceMeters
                estimatedElevationGainMeters := quality.estimatedElevationGainMeters
                duplicateStreetPenalty := quality.duplicateStreetPenalty
                uniqueStreetCount := quality.uniqueStreetCount } })

/-! ## Concrete instances used for evaluations

A 3-node path graph `A – B – C` with `A-B` of length 100 m, `B-C` of length
50 m, zero elevation gain, benign safety attributes (sidewalk, lit,
traffic stress 1), and collinear coordinates. -/

noncomputable def nodeA : RoadNode := { id := "A", coordinate := ⟨0, 0⟩ }

noncomputable def nodeB : RoadNode := { id := "B", coordinate := ⟨0, 1⟩ }

noncomputable def nodeC : RoadNode := { id := "C", coordinate := ⟨0, 2⟩ }

noncomputable def edgeAB : RoadEdge :=
  { id := "e1", fromNodeId := "A", toNodeId := "B", streetName := "First"
    lengthMeters := 100, bidirectional := true, hasSidewalk := true
    litAtNight := true, trafficStress := 1, elevationGainMeters := 0 }

noncomputable def edgeBC : RoadEdge :=
  { id := "e2", fromNodeId := "B", toNodeId := "C", streetName := "Second"
    lengthMeters := 50, bidirectional := true, hasSidewalk := true
    litAtNight := true, trafficStress := 1, elevationGainMeters := 0 }

noncomputable def abcGraph : RoadGraph :=
  createRoadGraph [nodeA, nodeB, nodeC] [edgeAB, edgeBC]

lemma nodeA_id : nodeA.id = "A" := rfl

lemma nodeB_id : nodeB.id = "B" := rfl

lemma nodeC_id : nodeC.id = "C" := rfl

lemma abc_nodes :
    abcGraph.nodes = [("A", nodeA), ("B", nodeB), ("C", nodeC)] := by rfl

lemma abc_trav :
    abcGraph.traversableFrom =
      [("A", [forwardEdge edgeAB]), ("B", [reverseEdge edgeAB, forwardEdge edgeBC]),
        ("C", [reverseEdge edgeBC])] := by rfl

lemma fAB_from : (forwardEdge edgeAB).fromNodeId = "A" := rfl

lemma fAB_to : (forwardEdge edgeAB).toNodeId = "B" := rfl

lemma fAB_len : (forwardEdge edgeAB).lengthMeters = 100 := rfl

lemma rAB_from : (reverseEdge edgeAB).fromNodeId = "B" := rfl

lemma rAB_to : (reverseEdge edgeAB).toNodeId = "A" := rfl

lemma rAB_len : (reverseEdge edgeAB).lengthMeters = 100 := rfl

lemma fBC_from : (forwardEdge edgeBC).fromNodeId = "B" := rfl

lemma fBC_to : (forwardEdge edgeBC).toNodeId = "C" := rfl

lemma fBC_len : (forwardEdge edgeBC).lengthMeters = 50 := rfl

lemma cost_eAB :
    scoreEdgeTraversal (forwardEdge edgeAB) DEFAULT_ROUTE_OBJECTIVE_WEIGHTS = 100 := by
  unfold scoreEdgeTraversal forwardEdge edgeAB DEFAULT_ROUTE_OBJECTIVE_WEIGHTS
  norm_num

lemma cost_eBA :
    scoreEdgeTraversal (reverseEdge edgeAB) DEFAULT_ROUTE_OBJECTIVE_WEIGHTS = 100 := by
  unfold scoreEdgeTraversal reverseEdge forwardEdge edgeAB DEFAULT_ROUTE_OBJECTIVE_WEIGHTS
  norm_num

lemma cost_eBC :
    scoreEdgeTraversal (forwardEdge edgeBC) DEFAULT_ROUTE_OBJECTIVE_WEIGHTS = 50 := by
  unfold scoreEdgeTraversal forwardEdge edgeBC DEFAULT_ROUTE_OBJECTIVE_WEIGHTS
  norm_num

/-- Walking `A → B` and immediately back toward `A`: the two direction
vectors at `B` coincide, so the computed angle is `arccos 1 = 0`. -/
lemma turn_ABA :
    scoreTurn nodeA.coordinate nodeB.coordinate nodeA.coordinate
      DEFAULT_ROUTE_OBJECTIVE_WEIGHTS = 0 := by
  unfold scoreTurn angleBetweenDegrees nodeA nodeB DEFAULT_ROUTE_OBJECTIVE_WEIGHTS
  norm_num [Real.sqrt_one, Real.arccos_one]

lemma turn_BAB :
    scoreTurn nodeB.coordinate nodeA.coordinate nodeB.coordinate
      DEFAULT_ROUTE_OBJECTIVE_WEIGHTS = 0 := by
  unfold scoreTurn angleBetweenDegrees nodeA nodeB DEFAULT_ROUTE_OBJECTIVE_WEIGHTS
  norm_num [Real.sqrt_one, Real.arccos_one]

/-- Continuing straight through `B` on the collinear path: the two direction
vectors at `B` are opposite, the computed angle is `arccos (-1) = 180°`, so
the transition picks up the full bend penalty (40) plus the `angle > 165`
penalty (120). -/
lemma turn_ABC :
    scoreTurn nodeA.coordinate nodeB.coordinate nodeC.coordinate
      DEFAULT_ROUTE_OBJECTIVE_WEIGHTS = 160 := by
  unfold scoreTurn angleBetweenDegrees nodeA nodeB nodeC DEFAULT_ROUTE_OBJECTIVE_WEIGHTS
  norm_num [Real.sqrt_one, Real.arccos_neg_one]
  rw [mul_comm Real.pi 180, mul_div_assoc, div_self Real.pi_ne_zero]
  norm_num

/-- Full evaluation of the in-memory search on the `A – B – C` graph. -/
lemma findPath_abc_eval :
    findPath 5 abcGraph "A" "C" DEFAULT_ROUTE_OBJECTIVE_WEIGHTS =
      some (Except.ok
        { nodeIds := ["A", "B", "C"]
          traversedEdges := [forwardEdge edgeAB, forwardEdge edgeBC]
          totalDistanceMeters := 150
          totalCost := 310 }) := by
  simp [findPath, searchLoop, relaxEdge, relaxCost, pushedState, sortByCost, insertByCost, mapSet, mapGet,
    createKey, reconstructPath, reconstructChain, abc_nodes, abc_trav,
    nodeA_id, nodeB_id, nodeC_id,
    fAB_from, fAB_to, fAB_len, rAB_from, rAB_to, rAB_len, fBC_from, fBC_to, fBC_len,
    cost_eAB, cost_eBA, cost_eBC, turn_ABA, turn_BAB, turn_ABC,
    show (50:ℝ) + 160 = 210 by norm_num,
    show (100:ℝ) + 210 = 310 by norm_num,
    show ((100:ℝ) + 100 ≤ 100 + 210) = True by norm_num,
    show ((200:ℝ) ≤ 100 + 210) = True by norm_num,
    show ((100:ℝ) + 100 ≤ 100 + 50 + 160) = True by norm_num,
    show ((100:ℝ) ≤ 100 + 100 + 100) = True by norm_num,
    show ((100:ℝ) ≤ 200 + 100) = True by norm_num,
    show ((100:ℝ) ≤ 300) = True by norm_num,
    show ((200:ℝ) ≤ 150 + 160) = True by norm_num,
    show ((200:ℝ) ≤ 310) = True by norm_num,
    show (100:ℝ) + 50 = 150 by norm_num,
    show (100:ℝ) + 50 + 160 = 310 by norm_num,
    show (150:ℝ) + 160 = 310 by norm_num,
    show (200:ℝ) + 100 = 300 by norm_num,
    show (100:ℝ) + 100 = 200 by norm_num]

/-! ## Claims -/

/-- **C1**: on the 3-node path graph `A – B – C` (edge `A-B` of length 100
meters, edge `B-C` of length 50 meters, zero elevation gain, default
weights), the in-memory `findPath` from `A` to `C` returns a `PathResult`
with `nodeIds = [A, B, C]` and `totalDistanceMeters = 150`. -/
theorem C1_findPath_three_node_path :
    ∃ result : PathResult,
      findPath 5 abcGraph "A" "C" DEFAULT_ROUTE_OBJECTIVE_WEIGHTS =
        some (Except.ok result) ∧
      result.nodeIds = ["A", "B", "C"] ∧
      result.totalDistanceMeters = 150 := by
  refine ⟨_, findPath_abc_eval, rfl, rfl⟩

/-- **C5**: the claim says `scoreTurn` adds the fixed `100 * wUTurn` U-turn
penalty whenever the runner immediately reverses direction (next coordinate
equal to the previous coordinate, both distinct from the current one).  The
code does the opposite: for an immediate reversal the two direction vectors
at the current coordinate coincide, the dot-product angle is `0°`, and the
returned turn cost is `0`, not including the `100 * 1.2 = 120` penalty.
(Conversely, `turn_ABC` above shows a straight continuation — geometrically
no turn at all — is charged the "U-turn" penalty, because the angle between
the vectors toward the previous and next coordinates is `180° > 165°`.)
This contradicts the code's own naming (`isUTurn`) and the spec's stated
intent of "penalizing sharp turns and especially U-turns". -/
theorem C5_reversal_gets_no_uturn_penalty :
    scoreTurn ⟨0, 0⟩ ⟨0, 1⟩ ⟨0, 0⟩ DEFAULT_ROUTE_OBJECTIVE_WEIGHTS = 0 ∧
    100 * DEFAULT_ROUTE_OBJECTIVE_WEIGHTS.uTurn = 120 ∧
    scoreTurn nodeA.coordinate nodeB.coordinate nodeC.coordinate
      DEFAULT_ROUTE_OBJECTIVE_WEIGHTS = 160 := by
  refine ⟨?_, by unfold DEFAULT_ROUTE_OBJECTIVE_WEIGHTS; norm_num, turn_ABC⟩
  unfold scoreTurn angleBetweenDegrees DEFAULT_ROUTE_OBJECTIVE_WEIGHTS
  norm_num [Real.sqrt_one, Real.arccos_one]

/-- **C10**: for every graph and node id `s`, `findPath` with
`startNodeId = endNodeId = s` succeeds immediately with `nodeIds = [s]`, no
traversed edges, zero distance and zero cost — even when `s` is not in the
graph's node map (the goal test happens before any graph access). -/
theorem C10_findPath_start_equals_end (graph : RoadGraph) (s : String)
    (weights : RouteObjectiveWeights) (fuel : ℕ) (h : 0 < fuel) :
    findPath fuel graph s s weights =
      some (Except.ok
        { nodeIds := [s]
          traversedEdges := []
          totalDistanceMeters := 0
          totalCost := 0 }) := by
  obtain ⟨n, rfl⟩ : ∃ n, fuel = n + 1 := ⟨fuel - 1, (Nat.succ_pred_eq_of_pos h).symm⟩
  simp [findPath, searchLoop, sortByCost, insertByCost, mapSet, mapGet,
    reconstructPath, reconstructChain]

/-- Witness for **C10**: concrete instantiation on a graph that does not
even contain the node `"X"`. -/
theorem C10_findPath_start_equals_end_witness :
    0 < 1 ∧
    findPath 1 { nodes := [], edges := [], traversableFrom := [] } "X" "X"
      DEFAULT_ROUTE_OBJECTIVE_WEIGHTS =
      some (Except.ok
        { nodeIds := ["X"]
          traversedEdges := []
          totalDistanceMeters := 0
          totalCost := 0 }) :=
  ⟨Nat.zero_lt_one,
    C10_findPath_start_equals_end { nodes := [], edges := [], traversableFrom := [] }
      "X" DEFAULT_ROUTE_OBJECTIVE_WEIGHTS 1 Nat.zero_lt_one⟩

/-- The selection budget exactly as the claim words it: in alphabet mode
`min(requestedLetterCount, clamp(floor((maxDistanceMeters or 8000) / 800), 6, 14))`
(no `max 1` wrapper), in target-street mode `max(3, targetStreetCount)`. -/
noncomputable def claimedSelectionBudget (strategy : Strategy)
    (targetLetters : List Char) (targetStreetNames : List String)
    (maxDistanceMeters : Option ℝ) : ℤ :=
  match strategy with
  | Strategy.alphabet =>
    min (targetLetters.length : ℤ)
      (max 6 (min 14 ⌊(maxDistanceMeters.getD 8000) / 800⌋))
  | Strategy.target_streets => max 3 (targetStreetNames.length : ℤ)

/-- The selection budget as amended: the code wraps the alphabet-mode value
in `max 1 (…)` (`Math.max(1, Math.min(targetLetters.length, cap))`), so a
request whose normalized alphabet is empty still gets one selection. -/
noncomputable def amendedSelectionBudget (strategy : Strategy)
    (targetLetters : List Char) (targetStreetNames : List String)
    (maxDistanceMeters : Option ℝ) : ℤ :=
  match strategy with
  | Strategy.alphabet =>
    max 1 (min (targetLetters.length : ℤ)
      (max 6 (min 14 ⌊(maxDistanceMeters.getD 8000) / 800⌋)))
  | Strategy.target_streets => max 3 (targetStreetNames.length : ℤ)

/-- **C7 counterexample**: a request in alphabet mode whose custom alphabet
`["42"]` contains no alphabetic character normalizes to zero letters; the
claim's formula gives a budget of `min(0, clamp(10, 6, 14)) = 0`, but
`optimizeCoverageRoute`'s `maxSelections` is `max(1, min(0, 10)) = 1`. -/
theorem C7_selection_budget_counterexample :
    normalizeAlphabet (some ["42"]) = [] ∧
    maxSelections Strategy.alphabet (normalizeAlphabet (some ["42"])) [] none = 1 ∧
    claimedSelectionBudget Strategy.alphabet (normalizeAlphabet (some ["42"])) [] none = 0 ∧
    maxSelections Strategy.alphabet (normalizeAlphabet (some ["42"])) [] none ≠
      claimedSelectionBudget Strategy.alphabet (normalizeAlphabet (some ["42"])) [] none := by
  have hnorm : normalizeAlphabet (some ["42"]) = [] := by
    simp [normalizeAlphabet, firstLetter, dedupPreservingFirst]
  refine ⟨hnorm, ?_, ?_, ?_⟩ <;>
    simp [hnorm, maxSelections, claimedSelectionBudget, alphabetSelectionCap]

/-- **C7 (amended)**: the selection budget used by `optimizeCoverageRoute`
equals, in alphabet mode,
`max(1, min(requestedLetterCount, clamp(floor((maxDistanceMeters or 8000) / 800), 6, 14)))`
and, in target-street mode, `max(3, targetStreetCount)`, for every request.
(The code computes the target-street branch as
`max(3, targetStreetCount || 3)`, which is the same value.) -/
theorem C7_selection_budget_amended (strategy : Strategy)
    (targetLetters : List Char) (targetStreetNames : List String)
    (maxDistanceMeters : Option ℝ) :
    maxSelections strategy targetLetters targetStreetNames maxDistanceMeters =
      amendedSelectionBudget strategy targetLetters targetStreetNames
        maxDistanceMeters := by
  cases strategy with
  | alphabet => rfl
  | target_streets =>
    show max 3 (if targetStreetNames.length = 0 then 3
        else (targetStreetNames.length : ℤ)) =
      max 3 (targetStreetNames.length : ℤ)
    by_cases h : targetStreetNames.length = 0 <;> simp [h]

/-- Witness for **C7 (amended)** at a concrete request shape: target-street
mode with an empty target list gets a budget of 3. -/
theorem C7_selection_budget_amended_witness :
    maxSelections Strategy.target_streets [] [] (some 1000) = 3 ∧
    amendedSelectionBudget Strategy.target_streets [] [] (some 1000) = 3 := by
  constructor
  · rw [C7_selection_budget_amended]
    simp [amendedSelectionBudget]
  · simp [amendedSelectionBudget]

lemma nearest_fold_characterization (coordinate : Coordinate) :
    ∀ (l : List RoadNode) (name : String) (d : ℝ),
      (l.foldl (nearestStep coordinate) (name, some d) = (name, some d) ∧
        ∀ x ∈ l, d ≤ distanceMeters x.coordinate coordinate) ∨
      (∃ i, ∃ hi : i < l.length,
        l.foldl (nearestStep coordinate) (name, some d) =
          ((l.get ⟨i, hi⟩).id, some (distanceMeters (l.get ⟨i, hi⟩).coordinate coordinate)) ∧
        distanceMeters (l.get ⟨i, hi⟩).coordinate coordinate < d ∧
        (∀ x ∈ l, distanceMeters (l.get ⟨i, hi⟩).coordinate coordinate ≤
          distanceMeters x.coordinate coordinate) ∧
        (∀ x ∈ l.take i, distanceMeters (l.get ⟨i, hi⟩).coordinate coordinate <
          distanceMeters x.coordinate coordinate)) := by
  intro l
  induction l with
  | nil => intro name d; left; simp
  | cons n rest ih =>
    intro name d
    by_cases hlt : distanceMeters n.coordinate coordinate < d
    · have hstep : nearestStep coordinate (name, some d) n =
          (n.id, some (distanceMeters n.coordinate coordinate)) := by
        simp [nearestStep, hlt]
      rcases ih n.id (distanceMeters n.coordinate coordinate) with ⟨heq, hall⟩ | ⟨i, hi, heq, hless, hall, hfirst⟩
      · right
        refine ⟨0, by simp, ?_, hlt, ?_, by simp⟩
        · simpa [hstep] using heq
        · intro x hx
          rcases List.mem_cons.mp hx with rfl | hx
          · simp
          · exact hall x hx
      · right
        refine ⟨i + 1, by simpa using Nat.succ_lt_succ hi, ?_, ?_, ?_, ?_⟩ <;>
          simp only [List.get_cons_succ]
        · simpa [hstep] using heq
        · exact lt_trans hless hlt
        · intro x hx
          rcases List.mem_cons.mp hx with rfl | hx
          · exact le_of_lt hless
          · exact hall x hx
        · intro x hx
          simp only [List.take_succ_cons] at hx
          rcases List.mem_cons.mp hx with rfl | hx
          · exact hless
          · exact hfirst x hx
    · have hstep : nearestStep coordinate (name, some d) n = (name, some d) := by
        simp [nearestStep, hlt]
      rcases ih name d with ⟨heq, hall⟩ | ⟨i, hi, heq, hless, hall, hfirst⟩
      · left
        refine ⟨by simpa [hstep] using heq, ?_⟩
        intro x hx
        rcases List.mem_cons.mp hx with rfl | hx
        · exact not_lt.mp hlt
        · exact hall x hx
      · right
        refine ⟨i + 1, by simpa using Nat.succ_lt_succ hi, ?_, ?_, ?_, ?_⟩ <;>
          simp only [List.get_cons_succ]
        · simpa [hstep] using heq
        · exact hless
        · intro x hx
          rcases List.mem_cons.mp hx with rfl | hx
          · exact le_of_lt (lt_of_lt_of_le hless (not_lt.mp hlt))
          · exact hall x hx
        · intro x hx
          simp only [List.take_succ_cons] at hx
          rcases List.mem_cons.mp hx with rfl | hx
          · exact lt_of_lt_of_le hless (not_lt.mp hlt)
          · exact hfirst x hx

/-- A single-node graph (node id `"A"`). -/
noncomputable def singleGraph : RoadGraph :=
  createRoadGraph [{ id := "A", coordinate := ⟨0, 0⟩ }] []

lemma singleGraph_values :
    mapValues singleGraph.nodes =
      [{ id := "A", coordinate := ⟨0, 0⟩, elevationMeters := none }] := by rfl

/-- A non-empty graph whose only node has the empty string as id. -/
noncomputable def emptyIdGraph : RoadGraph :=
  createRoadGraph [{ id := "", coordinate := ⟨0, 0⟩ }] []

/-- **C8 counterexample**: the claim says `findNearestNodeId` fails if and
only if the graph has zero nodes, and that on a one-node graph it returns
that node's id.  But on a non-empty graph whose (nearest) node has the
falsy id `""`, the final `if (!bestNodeId)` check misfires and the
"empty graph" error is thrown anyway. -/
theorem C8_nearest_counterexample :
    mapValues emptyIdGraph.nodes ≠ [] ∧
    findNearestNodeId emptyIdGraph ⟨0, 0⟩ = Except.error GraphError.emptyGraph := by
  constructor
  · simp [emptyIdGraph, createRoadGraph, mapFromList, mapSet, mapValues]
  · rfl

/-- **C8 (amended)**: on every graph all of whose node ids are non-empty,
`findNearestNodeId` fails with the "empty graph" condition iff the graph has
zero nodes, and on a non-empty such graph it returns the id of the first
node (in `Map` iteration order) minimizing the rounded equirectangular
distance to the input coordinate: its distance is a minimum over all nodes
and strictly below the distance of every earlier node.  (The claim as
stated fails on nodes with the falsy id `""`, see
`C8_nearest_counterexample`.) -/
theorem C8_findNearestNodeId_amended (graph : RoadGraph) (coordinate : Coordinate)
    (hids : ∀ node ∈ mapValues graph.nodes, ¬node.id = "") :
    (findNearestNodeId graph coordinate = Except.error GraphError.emptyGraph ↔
      mapValues graph.nodes = []) ∧
    (mapValues graph.nodes ≠ [] →
      ∃ i, ∃ hi : i < (mapValues graph.nodes).length,
        findNearestNodeId graph coordinate =
          Except.ok ((mapValues graph.nodes).get ⟨i, hi⟩).id ∧
        (∀ node ∈ mapValues graph.nodes,
          distanceMeters ((mapValues graph.nodes).get ⟨i, hi⟩).coordinate coordinate ≤
            distanceMeters node.coordinate coordinate) ∧
        (∀ node ∈ (mapValues graph.nodes).take i,
          distanceMeters ((mapValues graph.nodes).get ⟨i, hi⟩).coordinate coordinate <
            distanceMeters node.coordinate coordinate)) := by
  rcases hns : mapValues graph.nodes with - | ⟨n, rest⟩
  · constructor
    · constructor
      · intro _; rfl
      · intro _
        unfold findNearestNodeId
        rw [hns]
        simp
    · intro hne; exact absurd rfl hne
  · have hn_ne : ¬n.id = "" := hids n (by rw [hns]; exact List.mem_cons_self n rest)
    have hfold : (mapValues graph.nodes).foldl (nearestStep coordinate) ("", none) =
        rest.foldl (nearestStep coordinate)
          (n.id, some (distanceMeters n.coordinate coordinate)) := by
      rw [hns]
      rfl
    have hmain : ∃ i, ∃ hi : i < (n :: rest).length,
        findNearestNodeId graph coordinate =
          Except.ok ((n :: rest).get ⟨i, hi⟩).id ∧
        (∀ node ∈ n :: rest,
          distanceMeters ((n :: rest).get ⟨i, hi⟩).coordinate coordinate ≤
            distanceMeters node.coordinate coordinate) ∧
        (∀ node ∈ (n :: rest).take i,
          distanceMeters ((n :: rest).get ⟨i, hi⟩).coordinate coordinate <
            distanceMeters node.coordinate coordinate) := by
      rcases nearest_fold_characterization coordinate rest n.id
          (distanceMeters n.coordinate coordinate) with
        ⟨heq, hall⟩ | ⟨i, hi, heq, hless, hall, hfirst⟩
      · refine ⟨0, by simp, ?_, ?_, by simp⟩
        · unfold findNearestNodeId
          rw [hfold, heq]
          simp [hn_ne]
        · intro x hx
          rcases List.mem_cons.mp hx with rfl | hx
          · simp
          · exact hall x hx
      · have hid_ne : ¬(rest.get ⟨i, hi⟩).id = "" := by
          refine hids _ ?_
          rw [hns]
          exact List.mem_cons_of_mem n (rest.get_mem i hi)
        have hid_ne2 : ¬rest[i].id = "" := hid_ne
        refine ⟨i + 1, by simpa using Nat.succ_lt_succ hi, ?_, ?_, ?_⟩ <;>
          simp only [List.get_cons_succ]
        · unfold findNearestNodeId
          rw [hfold, heq]
          simp [hid_ne, hid_ne2]
        · intro x hx
          rcases List.mem_cons.mp hx with rfl | hx
          · exact le_of_lt hless
          · exact hall x hx
        · intro x hx
          simp only [List.take_succ_cons] at hx
          rcases List.mem_cons.mp hx with rfl | hx
          · exact hless
          · exact hfirst x hx
    constructor
    · constructor
      · intro herr
        obtain ⟨i, hi, hok, -, -⟩ := hmain
        rw [hok] at herr
        exact absurd herr (by simp)
      · intro h
        exact absurd h (by simp)
    · rintro -
      exact hmain

/-- Witness for **C8 (amended)**: on the one-node graph the theorem yields
the concrete result `Except.ok "A"` for an arbitrary input coordinate. -/
theorem C8_findNearestNodeId_amended_witness :
    findNearestNodeId singleGraph ⟨5, 9⟩ = Except.ok "A" := by
  have hids : ∀ node ∈ mapValues singleGraph.nodes, ¬node.id = "" := by
    intro node hnode
    rw [singleGraph_values] at hnode
    rcases List.mem_singleton.mp hnode with rfl
    simp
  have h := (C8_findNearestNodeId_amended singleGraph ⟨5, 9⟩ hids).2
    (by rw [singleGraph_values]; simp)
  obtain ⟨i, hi, hok, -, -⟩ := h
  have hi1 : i < 1 := by
    simpa [singleGraph_values] using hi
  interval_cases i
  rw [hok]
  rfl



/-! ## Reachability and the no-path failure -/

/-- Directed reachability along the traversable-edge adjacency index. -/
inductive Reaches (graph : RoadGraph) : String → String → Prop
  | refl (s : String) : Reaches graph s s
  | step {s t u : String} (h : Reaches graph s t) (edge : TraversableEdge)
      (hmem : edge ∈ (mapGet graph.traversableFrom t).getD [])
      (hto : edge.toNodeId = u) : Reaches graph s u

lemma mem_insertByCost {x y : PathState} :
    ∀ {l : List PathState}, x ∈ insertByCost y l → x = y ∨ x ∈ l := by
  intro l
  induction l with
  | nil => intro h; simpa [insertByCost] using h
  | cons z zs ih =>
    intro h
    unfold insertByCost at h
    by_cases hc : y.cost ≤ z.cost
    · rw [if_pos hc] at h
      rcases List.mem_cons.mp h with rfl | h
      · exact Or.inl rfl
      · exact Or.inr h
    · rw [if_neg hc] at h
      rcases List.mem_cons.mp h with rfl | h
      · exact Or.inr (List.mem_cons_self _ _)
      · rcases ih h with h1 | h1
        · exact Or.inl h1
        · exact Or.inr (List.mem_cons_of_mem z h1)

lemma mem_sortByCost {x : PathState} :
    ∀ {l : List PathState}, x ∈ sortByCost l → x ∈ l := by
  intro l
  induction l with
  | nil => intro h; simp [sortByCost] at h
  | cons z zs ih =>
    intro h
    have : x ∈ insertByCost z (sortByCost zs) := h
    rcases mem_insertByCost this with rfl | h1
    · exact List.mem_cons_self _ _
    · exact List.mem_cons_of_mem z (ih h1)

/-- `relaxEdge` either leaves the pushed-state list unchanged or appends a
single new state headed to the relaxed edge's target. -/
lemma relaxEdge_pushes (graph : RoadGraph) (weights : RouteObjectiveWeights)
    (current : PathState)
    (acc : KMap String ℝ × KMap String PathState × List PathState)
    (e : TraversableEdge) :
    (relaxEdge graph weights current acc e).2.2 = acc.2.2 ∨
    ∃ nextState : PathState, nextState.nodeId = e.toNodeId ∧
      nextState.previousNodeId = some current.nodeId ∧
      (relaxEdge graph weights current acc e).2.2 = acc.2.2 ++ [nextState] := by
  unfold relaxEdge
  dsimp only
  split
  · split
    · exact Or.inl rfl
    · exact Or.inr ⟨_, rfl, rfl, rfl⟩
  · exact Or.inr ⟨_, rfl, rfl, rfl⟩

/-- Every state pushed by the relaxation fold is either already in the
accumulator or the head of a traversable edge out of the popped node. -/
lemma relax_fold_pushes (graph : RoadGraph) (weights : RouteObjectiveWeights)
    (current : PathState) :
    ∀ (edges : List TraversableEdge)
      (acc : KMap String ℝ × KMap String PathState × List PathState)
      (st : PathState),
      st ∈ (edges.foldl (relaxEdge graph weights current) acc).2.2 →
      st ∈ acc.2.2 ∨
        ∃ edge ∈ edges, st.nodeId = edge.toNodeId ∧
          st.previousNodeId = some current.nodeId := by
  intro edges
  induction edges with
  | nil => intro acc st h; exact Or.inl h
  | cons e es ih =>
    intro acc st h
    rw [List.foldl_cons] at h
    rcases ih (relaxEdge graph weights current acc e) st h with h1 | ⟨e2, he2, h2⟩
    · rcases relaxEdge_pushes graph weights current acc e with heq | ⟨ns, hns1, hns2, heq⟩
      · rw [heq] at h1
        exact Or.inl h1
      · rw [heq] at h1
        rcases List.mem_append.mp h1 with h1 | h1
        · exact Or.inl h1
        · rcases List.mem_singleton.mp h1 with rfl
          exact Or.inr ⟨e, List.mem_cons_self _ _, hns1, hns2⟩
    · exact Or.inr ⟨e2, List.mem_cons_of_mem e he2, h2⟩

/-- If the goal is unreachable from the start node, then no frontier of
reachable states can ever produce a successful `PathResult`. -/
lemma searchLoop_no_ok (graph : RoadGraph) (weights : RouteObjectiveWeights)
    (startNodeId endNodeId : String)
    (hend : ¬Reaches graph startNodeId endNodeId) :
    ∀ (fuel : ℕ) (openStates : List PathState) (bestCostByState : KMap String ℝ)
      (stateMap : KMap String PathState),
      (∀ st ∈ openStates, Reaches graph startNodeId st.nodeId) →
      ∀ r, searchLoop graph weights startNodeId endNodeId fuel openStates
        bestCostByState stateMap ≠ some (Except.ok r) := by
  intro fuel
  induction fuel with
  | zero => intro openStates b M hopen r; simp [searchLoop]
  | succ n ih =>
    intro openStates b M hopen r
    unfold searchLoop
    rcases hsort : sortByCost openStates with - | ⟨current, rest⟩
    · simp
    · have hcur : Reaches graph startNodeId current.nodeId :=
        hopen current (mem_sortByCost (hsort ▸ List.mem_cons_self current rest))
      by_cases hgoal : current.nodeId = endNodeId
      · exact absurd (hgoal ▸ hcur) hend
      · dsimp only
        rw [if_neg hgoal]
        refine ih _ _ _ ?_ r
        intro st hst
        rcases List.mem_append.mp hst with hst | hst
        · exact hopen st (mem_sortByCost (hsort ▸ List.mem_cons_of_mem current hst))
        · rcases relax_fold_pushes graph weights current _ _ st hst with h1 | ⟨e, he, h1, -⟩
          · exact absurd h1 (List.not_mem_nil st)
          · exact h1 ▸ Reaches.step hcur e he rfl

/-- Any error the search loop ever returns is the no-path error naming the
requested endpoints. -/
lemma searchLoop_error_shape (graph : RoadGraph) (weights : RouteObjectiveWeights)
    (startNodeId endNodeId : String) :
    ∀ (fuel : ℕ) (openStates : List PathState) (bestCostByState : KMap String ℝ)
      (stateMap : KMap String PathState) (e : SearchError),
      searchLoop graph weights startNodeId endNodeId fuel openStates
        bestCostByState stateMap = some (Except.error e) →
      e = SearchError.noPath startNodeId endNodeId := by
  intro fuel
  induction fuel with
  | zero => intro openStates b M e h; simp [searchLoop] at h
  | succ n ih =>
    intro openStates b M e h
    unfold searchLoop at h
    rcases hsort : sortByCost openStates with - | ⟨current, rest⟩
    · rw [hsort] at h
      simp at h
      exact h.symm
    · rw [hsort] at h
      dsimp only at h
      by_cases hgoal : current.nodeId = endNodeId
      · rw [if_pos hgoal] at h
        simp at h
      · rw [if_neg hgoal] at h
        exact ih _ _ _ e h

/-- **C2**: (a) whenever there is no directed path from `startNodeId` to
`endNodeId`, the in-memory `findPath` never returns a `PathResult`
(no partial results), and (b) for every graph and every pair of endpoints,
any error it returns is the "no path" error naming both endpoints — the
frontier running empty is the only failure condition of the loop. -/
theorem C2_findPath_no_path (graph : RoadGraph)
    (startNodeId endNodeId : String) (weights : RouteObjectiveWeights) :
    (¬Reaches graph startNodeId endNodeId →
      ∀ (fuel : ℕ) (r : PathResult),
        findPath fuel graph startNodeId endNodeId weights ≠
          some (Except.ok r)) ∧
    (∀ (fuel : ℕ) (e : SearchError),
      findPath fuel graph startNodeId endNodeId weights =
        some (Except.error e) →
      e = SearchError.noPath startNodeId endNodeId) := by
  constructor
  · intro hend fuel r
    refine searchLoop_no_ok graph weights startNodeId endNodeId hend fuel _ _ _ ?_ r
    intro st hst
    rcases List.mem_singleton.mp hst with rfl
    exact Reaches.refl startNodeId
  · intro fuel e h
    exact searchLoop_error_shape graph weights startNodeId endNodeId fuel _ _ _ e h

/-- Two isolated nodes `"A"`, `"B"` with no edges at all. -/
noncomputable def twoIslandGraph : RoadGraph :=
  createRoadGraph [{ id := "A", coordinate := ⟨0, 0⟩ }, { id := "B", coordinate := ⟨0, 1⟩ }] []

/-- In a graph with an empty adjacency index, reachability is equality. -/
lemma twoIslandGraph_reaches {s t : String} (h : Reaches twoIslandGraph s t) : s = t := by
  induction h with
  | refl => rfl
  | step h edge hmem hto ih =>
    have hempty : ∀ k, mapGet twoIslandGraph.traversableFrom k = none := fun k => rfl
    rw [hempty] at hmem
    exact absurd hmem (List.not_mem_nil edge)

/-- Witness for **C2**: on the two-island graph, the search from `"A"` to
`"B"` can never succeed, and concretely (with enough fuel for its two
iterations) it returns exactly the no-path error naming both endpoints. -/
theorem C2_findPath_no_path_witness :
    (∀ r : PathResult,
      findPath 2 twoIslandGraph "A" "B" DEFAULT_ROUTE_OBJECTIVE_WEIGHTS ≠
        some (Except.ok r)) ∧
    findPath 2 twoIslandGraph "A" "B" DEFAULT_ROUTE_OBJECTIVE_WEIGHTS =
      some (Except.error (SearchError.noPath "A" "B")) := by
  constructor
  · intro r
    refine (C2_findPath_no_path twoIslandGraph "A" "B"
      DEFAULT_ROUTE_OBJECTIVE_WEIGHTS).1 ?_ 2 r
    intro hr
    exact absurd (twoIslandGraph_reaches hr) (by simp)
  · simp [findPath, searchLoop, sortByCost, insertByCost, relaxEdge, mapSet, mapGet,
      createKey, twoIslandGraph, createRoadGraph, buildAdjacency, mapFromList]



/-! ## Association-list map lemmas -/

lemma mapGet_set_self {α : Type} (m : KMap String α) (k : String) (v : α) :
    mapGet (mapSet m k v) k = some v := by
  induction m with
  | nil => simp [mapGet, mapSet]
  | cons p rest ih => by_cases hp : p.1 = k <;> simp [mapGet, mapSet, hp, ih]

lemma mapGet_set_ne {α : Type} (m : KMap String α) (k k2 : String) (v : α)
    (h : ¬k2 = k) : mapGet (mapSet m k v) k2 = mapGet m k2 := by
  have h2 : ¬k = k2 := fun hc => h hc.symm
  induction m with
  | nil => simp [mapGet, mapSet, h2]
  | cons p rest ih =>
    by_cases hp : p.1 = k
    · have hp2 : ¬p.1 = k2 := by rw [hp]; exact h2
      simp [mapGet, mapSet, hp, h2, hp2]
    · by_cases hp2 : p.1 = k2 <;> simp [mapGet, mapSet, hp, hp2, ih, h]

lemma mapGet_isSome_of_mem_keys {α : Type} (m : KMap String α) (k : String)
    (h : k ∈ m.map Prod.fst) : ∃ v, mapGet m k = some v := by
  induction m with
  | nil => simp at h
  | cons p rest ih =>
    by_cases hp : p.1 = k
    · exact ⟨p.2, by simp [mapGet, hp]⟩
    · rw [List.map_cons] at h
      rcases List.mem_cons.mp h with h1 | h1
      · exact absurd h1.symm hp
      · obtain ⟨v, hv⟩ := ih h1
        exact ⟨v, by simpa [mapGet, hp] using hv⟩

lemma mem_keys_of_mapGet {α : Type} (m : KMap String α) (k : String) (v : α)
    (h : mapGet m k = some v) : k ∈ m.map Prod.fst := by
  induction m with
  | nil => simp [mapGet] at h
  | cons p rest ih =>
    by_cases hp : p.1 = k
    · rw [List.map_cons, hp]
      exact List.mem_cons_self _ _
    · rw [mapGet, if_neg hp] at h
      exact List.mem_cons_of_mem _ (ih h)

lemma mapSet_keys_mem {α : Type} (m : KMap String α) (k : String) (v : α)
    (h : k ∈ m.map Prod.fst) :
    (mapSet m k v).map Prod.fst = m.map Prod.fst := by
  induction m with
  | nil => simp at h
  | cons p rest ih =>
    by_cases hp : p.1 = k
    · simp [mapSet, hp]
    · rw [List.map_cons] at h
      rcases List.mem_cons.mp h with h1 | h1
      · exact absurd h1.symm hp
      · simp [mapSet, hp, ih h1]

lemma mapSet_keys_not_mem {α : Type} (m : KMap String α) (k : String) (v : α)
    (h : k ∉ m.map Prod.fst) :
    (mapSet m k v).map Prod.fst = m.map Prod.fst ++ [k] := by
  induction m with
  | nil => simp [mapSet]
  | cons p rest ih =>
    have hp : ¬p.1 = k := by
      intro hc
      exact h (by rw [List.map_cons, hc]; exact List.mem_cons_self _ _)
    have h1 : k ∉ rest.map Prod.fst := by
      intro hc
      exact h (by rw [List.map_cons]; exact List.mem_cons_of_mem _ hc)
    simp [mapSet, hp, ih h1]

lemma mapSet_length {α : Type} (m : KMap String α) (k : String) (v : α) :
    m.length ≤ (mapSet m k v).length := by
  induction m with
  | nil => simp [mapSet]
  | cons p rest ih =>
    by_cases hp : p.1 = k <;> simp [mapSet, hp]
    exact ih

lemma mapSet_keys_nodup {α : Type} (m : KMap String α) (k : String) (v : α)
    (h : (m.map Prod.fst).Nodup) : ((mapSet m k v).map Prod.fst).Nodup := by
  by_cases hk : k ∈ m.map Prod.fst
  · rw [mapSet_keys_mem m k v hk]
    exact h
  · rw [mapSet_keys_not_mem m k v hk]
    refine List.Nodup.append h (by simp) ?_
    intro a ha hb
    rcases List.mem_singleton.mp hb with rfl
    exact hk ha

lemma mapGet_none_iff {α : Type} (m : KMap String α) (k : String) :
    mapGet m k = none ↔ k ∉ m.map Prod.fst := by
  constructor
  · intro h hk
    obtain ⟨v, hv⟩ := mapGet_isSome_of_mem_keys m k hk
    rw [h] at hv
    exact Option.noConfusion hv
  · intro hk
    rcases hv : mapGet m k with - | v
    · rfl
    · exact absurd (mem_keys_of_mapGet m k v hv) hk


/-! ## Composite-key disambiguation

`createKey` builds the `(node, previousNode)` composite key by string
concatenation (`nodeId|previousNodeId`, with the literal `start` for the
missing predecessor).  The key uniquely determines the pair as long as the
node ids involved contain no `'|'` and no node id is the literal `"start"`;
`GoodId` captures that side condition. -/

/-- A node id that cannot collide inside a concatenated state key. -/
def GoodId (s : String) : Prop := '|' ∉ s.toList ∧ ¬s = "start"

lemma bar_split : ∀ {l1 l2 r1 r2 : List Char}, '|' ∉ l1 → '|' ∉ l2 →
    l1 ++ '|' :: r1 = l2 ++ '|' :: r2 → l1 = l2 ∧ r1 = r2 := by
  intro l1
  induction l1 with
  | nil =>
    intro l2 r1 r2 h1 h2 heq
    cases l2 with
    | nil => simpa using heq
    | cons c cs =>
      rw [List.nil_append, List.cons_append] at heq
      rcases List.cons.inj heq with ⟨rfl, -⟩
      exact absurd (List.mem_cons_self _ _) h2
  | cons c cs ih =>
    intro l2 r1 r2 h1 h2 heq
    cases l2 with
    | nil =>
      rw [List.nil_append, List.cons_append] at heq
      rcases List.cons.inj heq with ⟨rfl, -⟩
      exact absurd (List.mem_cons_self _ _) h1
    | cons d ds =>
      rw [List.cons_append, List.cons_append] at heq
      rcases List.cons.inj heq with ⟨rfl, htail⟩
      have h1' : '|' ∉ cs := fun hc => h1 (List.mem_cons_of_mem _ hc)
      have h2' : '|' ∉ ds := fun hc => h2 (List.mem_cons_of_mem _ hc)
      obtain ⟨hl, hr⟩ := ih h1' h2' htail
      exact ⟨by rw [hl], hr⟩

lemma string_toList_inj {a b : String} (h : a.toList = b.toList) : a = b := by
  cases a
  cases b
  simp only [String.toList] at h
  rw [h]

lemma createKey_toList (n : String) (p : Option String) :
    (createKey n p).toList = n.toList ++ '|' :: (p.getD "start").toList := by
  unfold createKey
  cases p <;> simp

/-- On `GoodId` node ids (and `GoodId` or absent predecessors), `createKey`
is injective. -/
lemma createKey_inj {n1 n2 : String} {p1 p2 : Option String}
    (hn1 : GoodId n1) (hn2 : GoodId n2)
    (hp1 : ∀ q, p1 = some q → GoodId q) (hp2 : ∀ q, p2 = some q → GoodId q)
    (h : createKey n1 p1 = createKey n2 p2) : n1 = n2 ∧ p1 = p2 := by
  have htl := congrArg String.toList h
  rw [createKey_toList, createKey_toList] at htl
  obtain ⟨hl, hr⟩ := bar_split hn1.1 hn2.1 htl
  have hn : n1 = n2 := string_toList_inj hl
  refine ⟨hn, ?_⟩
  cases p1 with
  | none =>
    cases p2 with
    | none => rfl
    | some q2 =>
      exfalso
      have : ("start" : String) = q2 := string_toList_inj (by simpa using hr)
      exact (hp2 q2 rfl).2 this.symm
  | some q1 =>
    cases p2 with
    | none =>
      exfalso
      have : q1 = "start" := string_toList_inj (by simpa using hr)
      exact (hp1 q1 rfl).2 this
    | some q2 =>
      have : q1 = q2 := string_toList_inj (by simpa using hr)
      rw [this]

/-! ## Frontier sorting lemmas -/

lemma mem_insertByCost_iff {x y : PathState} :
    ∀ {l : List PathState}, x ∈ insertByCost y l ↔ x = y ∨ x ∈ l := by
  intro l
  induction l with
  | nil => simp [insertByCost]
  | cons z zs ih =>
    unfold insertByCost
    by_cases hc : y.cost ≤ z.cost
    · rw [if_pos hc]
      simp
    · rw [if_neg hc]
      constructor
      · intro h
        rcases List.mem_cons.mp h with rfl | h
        · exact Or.inr (List.mem_cons_self _ _)
        · rcases ih.mp h with h1 | h1
          · exact Or.inl h1
          · exact Or.inr (List.mem_cons_of_mem _ h1)
      · intro h
        rcases h with rfl | h
        · exact List.mem_cons_of_mem _ (ih.mpr (Or.inl rfl))
        · rcases List.mem_cons.mp h with rfl | h
          · exact List.mem_cons_self _ _
          · exact List.mem_cons_of_mem _ (ih.mpr (Or.inr h))

lemma mem_sortByCost_iff {x : PathState} :
    ∀ {l : List PathState}, x ∈ sortByCost l ↔ x ∈ l := by
  intro l
  induction l with
  | nil => simp [sortByCost]
  | cons z zs ih =>
    show x ∈ insertByCost z (sortByCost zs) ↔ _
    rw [mem_insertByCost_iff]
    simp [ih]

/-- The head of the sorted frontier has minimal cost. -/
lemma sortByCost_head_min :
    ∀ {l : List PathState} {c : PathState} {rest : List PathState},
      sortByCost l = c :: rest → ∀ x ∈ l, c.cost ≤ x.cost := by
  suffices hsorted : ∀ l : List PathState,
      (sortByCost l).Pairwise (fun a b => a.cost ≤ b.cost) by
    intro l c rest hl x hx
    have hx2 : x ∈ sortByCost l := mem_sortByCost_iff.mpr hx
    rw [hl] at hx2
    rcases List.mem_cons.mp hx2 with rfl | hx2
    · exact le_refl _
    · have := hsorted l
      rw [hl] at this
      exact (List.pairwise_cons.mp this).1 x hx2
  intro l
  induction l with
  | nil => simp [sortByCost]
  | cons z zs ih =>
    show (insertByCost z (sortByCost zs)).Pairwise _
    have hgen : ∀ (s : List PathState), s.Pairwise (fun a b => a.cost ≤ b.cost) →
        (insertByCost z s).Pairwise (fun a b => a.cost ≤ b.cost) := by
      intro s
      induction s with
      | nil => intro h; simp [insertByCost]
      | cons w ws ihs =>
        intro h
        unfold insertByCost
        by_cases hc : z.cost ≤ w.cost
        · rw [if_pos hc]
          refine List.pairwise_cons.mpr ⟨?_, h⟩
          intro b hb
          rcases List.mem_cons.mp hb with rfl | hb
          · exact hc
          · exact le_trans hc ((List.pairwise_cons.mp h).1 b hb)
        · rw [if_neg hc]
          refine List.pairwise_cons.mpr ⟨?_, ihs (List.pairwise_cons.mp h).2⟩
          intro b hb
          rcases mem_insertByCost_iff.mp hb with rfl | hb
          · exact le_of_not_le hc
          · exact (List.pairwise_cons.mp h).1 b hb
    exact hgen (sortByCost zs) ih



/-! ## Path chains

`PathChain a ns es c` says the node list `ns` runs from `a` to `c` and the
edge list `es` connects its consecutive entries: the `i`-th edge goes from
`ns[i]` to `ns[i+1]`. -/

inductive PathChain : String → List String → List TraversableEdge → String → Prop
  | single (n : String) : PathChain n [n] [] n
  | cons (a : String) (e : TraversableEdge) {b c : String} {ns : List String}
      {es : List TraversableEdge} :
      e.fromNodeId = a → e.toNodeId = b → PathChain b ns es c →
      PathChain a (a :: ns) (e :: es) c

lemma PathChain.append_edge {a b c : String} {ns : List String}
    {es : List TraversableEdge} (h : PathChain a ns es b) (e : TraversableEdge)
    (hf : e.fromNodeId = b) (ht : e.toNodeId = c) :
    PathChain a (ns ++ [c]) (es ++ [e]) c := by
  induction h with
  | single n => exact PathChain.cons n e hf ht (PathChain.single c)
  | cons a2 e2 hf2 ht2 h2 ih => exact PathChain.cons a2 e2 hf2 ht2 (ih hf)

lemma PathChain.length_eq {a c : String} {ns : List String}
    {es : List TraversableEdge} (h : PathChain a ns es c) :
    ns.length = es.length + 1 := by
  induction h with
  | single n => rfl
  | cons a2 e2 hf2 ht2 h2 ih => simpa using ih

lemma PathChain.head_eq {a c : String} {ns : List String}
    {es : List TraversableEdge} (h : PathChain a ns es c) :
    ns.head? = some a := by
  cases h with
  | single n => rfl
  | cons a2 e2 hf2 ht2 h2 => rfl

/-- The index form of the consecutive-edges property: the `i`-th traversed
edge goes from the `i`-th node id to the `(i+1)`-th. -/
lemma PathChain.edge_spec {a c : String} {ns : List String}
    {es : List TraversableEdge} (h : PathChain a ns es c) :
    ∀ i, ∀ hi : i < es.length, ∃ hi1 : i < ns.length, ∃ hi2 : i + 1 < ns.length,
      (es.get ⟨i, hi⟩).fromNodeId = ns.get ⟨i, hi1⟩ ∧
      (es.get ⟨i, hi⟩).toNodeId = ns.get ⟨i + 1, hi2⟩ := by
  induction h with
  | single n => intro i hi; exact absurd hi (by simp)
  | cons a2 e2 hf2 ht2 h2 ih =>
    rename_i b0 c0 ns0 es0
    intro i hi
    cases i with
    | zero =>
      have hlen := h2.length_eq
      refine ⟨by simp, by simp; omega, ?_, ?_⟩
      · simpa using hf2
      · cases h2 with
        | single n => simpa using ht2
        | cons a3 e3 hf3 ht3 h3 => simpa using ht2
    | succ j =>
      have hj : j < es0.length := by simpa using hi
      obtain ⟨h1, h2b, hfrom, hto⟩ := ih j hj
      refine ⟨Nat.succ_lt_succ h1, Nat.succ_lt_succ h2b, ?_, ?_⟩
      · simpa using hfrom
      · simpa using hto



/-! ## Well-formed back-pointer chains in the state map

`GoodChain M P k st keys` says the entry `st` stored at key `k` heads a
well-formed back-pointer chain through `M`: every link is a state reached
over a traversable edge from its parent state, distances telescope, all
ancestor keys lie in the ghost set `P` of already-settled (popped) keys,
and `keys` lists the (distinct) keys of the chain in order. -/

inductive GoodChain (M : KMap String PathState) (P : List String) :
    String → PathState → List String → Prop
  | root {k : String} {st : PathState} :
      mapGet M k = some st → st.key = k →
      createKey st.nodeId st.previousNodeId = k → GoodId st.nodeId →
      st.previousNodeId = none → st.parentKey = none → st.viaEdge = none →
      st.distanceMeters = 0 →
      GoodChain M P k st [k]
  | step {k : String} {st : PathState} {p : String} {e : TraversableEdge}
      {pk : String} {pst : PathState} {keys : List String} :
      mapGet M k = some st → st.key = k →
      createKey st.nodeId st.previousNodeId = k → GoodId st.nodeId → GoodId p →
      st.previousNodeId = some p → st.viaEdge = some e → st.parentKey = some pk →
      e.fromNodeId = p → e.toNodeId = st.nodeId →
      pst.nodeId = p →
      st.distanceMeters = pst.distanceMeters + e.lengthMeters →
      pk ∈ P → k ∉ keys → GoodChain M P pk pst keys →
      GoodChain M P k st (k :: keys)

lemma GoodChain.head_key {M : KMap String PathState} {P : List String}
    {k : String} {st : PathState} {keys : List String}
    (h : GoodChain M P k st keys) : ∃ tl, keys = k :: tl := by
  cases h with
  | root _ _ _ _ _ _ _ _ => exact ⟨[], rfl⟩
  | step _ _ _ _ _ _ _ _ _ _ _ _ _ _ _ => exact ⟨_, rfl⟩

lemma GoodChain.keys_sub {M : KMap String PathState} {P : List String}
    {k : String} {st : PathState} {keys : List String}
    (h : GoodChain M P k st keys) : ∀ k2 ∈ keys, k2 = k ∨ k2 ∈ P := by
  induction h with
  | root _ _ _ _ _ _ _ _ =>
    intro k2 hk2
    exact Or.inl (List.mem_singleton.mp hk2)
  | step _ _ _ _ _ _ _ _ _ _ _ _ hpk _ _ ih =>
    intro k2 hk2
    rcases List.mem_cons.mp hk2 with rfl | hk2
    · exact Or.inl rfl
    · rcases ih k2 hk2 with rfl | h2
      · exact Or.inr hpk
      · exact Or.inr h2

lemma GoodChain.keys_in_M {M : KMap String PathState} {P : List String}
    {k : String} {st : PathState} {keys : List String}
    (h : GoodChain M P k st keys) : ∀ k2 ∈ keys, k2 ∈ M.map Prod.fst := by
  induction h with
  | root hget _ _ _ _ _ _ _ =>
    intro k2 hk2
    rcases List.mem_singleton.mp hk2 with rfl
    exact mem_keys_of_mapGet _ _ _ hget
  | step hget _ _ _ _ _ _ _ _ _ _ _ _ _ _ ih =>
    intro k2 hk2
    rcases List.mem_cons.mp hk2 with rfl | hk2
    · exact mem_keys_of_mapGet _ _ _ hget
    · exact ih k2 hk2

lemma GoodChain.keys_nodup {M : KMap String PathState} {P : List String}
    {k : String} {st : PathState} {keys : List String}
    (h : GoodChain M P k st keys) : keys.Nodup := by
  induction h with
  | root _ _ _ _ _ _ _ _ => simp
  | step _ _ _ _ _ _ _ _ _ _ _ _ _ hnotmem _ ih =>
    exact List.nodup_cons.mpr ⟨hnotmem, ih⟩

lemma GoodChain.mono_P {M : KMap String PathState} {P P2 : List String}
    {k : String} {st : PathState} {keys : List String}
    (hsub : ∀ x ∈ P, x ∈ P2) (h : GoodChain M P k st keys) :
    GoodChain M P2 k st keys := by
  induction h with
  | root hget h1 h2 h3 h4 h5 h6 h7 => exact GoodChain.root hget h1 h2 h3 h4 h5 h6 h7
  | step hget h1 h2 h3 h3b h4 h5 h6 h7 h8 h8b h9 hpk hnm hc ih =>
    exact GoodChain.step hget h1 h2 h3 h3b h4 h5 h6 h7 h8 h8b h9 (hsub _ hpk) hnm ih

/-- A chain is insensitive to map changes outside its own key set. -/
lemma GoodChain.congr {M M2 : KMap String PathState} {P : List String}
    {k : String} {st : PathState} {keys : List String}
    (h : GoodChain M P k st keys)
    (hagree : ∀ k2 ∈ keys, mapGet M2 k2 = mapGet M k2) :
    GoodChain M2 P k st keys := by
  induction h with
  | root hget h1 h2 h3 h4 h5 h6 h7 =>
    exact GoodChain.root ((hagree _ (List.mem_singleton.mpr rfl)).trans hget)
      h1 h2 h3 h4 h5 h6 h7
  | step hget h1 h2 h3 h3b h4 h5 h6 h7 h8 h8b h9 hpk hnm hc ih =>
    refine GoodChain.step ((hagree _ (List.mem_cons_self _ _)).trans hget)
      h1 h2 h3 h3b h4 h5 h6 h7 h8 h8b h9 hpk hnm
      (ih (fun k2 hk2 => hagree _ (List.mem_cons_of_mem _ hk2)))

lemma nodup_subset_length {l1 l2 : List String} (h1 : l1.Nodup) (h2 : l2.Nodup)
    (hsub : ∀ x ∈ l1, x ∈ l2) : l1.length ≤ l2.length := by
  classical
  have hc1 : l1.toFinset.card = l1.length := List.toFinset_card_of_nodup h1
  have hc2 : l2.toFinset.card = l2.length := List.toFinset_card_of_nodup h2
  have hsub2 : l1.toFinset ⊆ l2.toFinset := by
    intro x hx
    rw [List.mem_toFinset] at hx ⊢
    exact hsub x hx
  calc l1.length = l1.toFinset.card := hc1.symm
    _ ≤ l2.toFinset.card := Finset.card_le_card hsub2
    _ = l2.length := hc2

/-- Walking the back pointers of a well-formed chain yields a path whose
edges connect consecutive node ids and whose distance telescopes to the sum
of the traversed edge lengths. -/
lemma reconstructChain_good {M : KMap String PathState} {P : List String}
    {k : String} {st : PathState} {keys : List String}
    (h : GoodChain M P k st keys) :
    ∀ {fuelR : ℕ}, keys.length ≤ fuelR →
      ∃ sts : List PathState,
        reconstructChain M fuelR (some k) = st :: sts ∧
        ∃ a : String,
          PathChain a (((st :: sts).reverse).map (fun s => s.nodeId))
            (((st :: sts).reverse).filterMap (fun s => s.viaEdge)) st.nodeId ∧
          st.distanceMeters =
            ((((st :: sts).reverse).filterMap (fun s => s.viaEdge)).map
              (fun e => e.lengthMeters)).sum := by
  induction h with
  | root hget h1 h2 h3 h4 h5 h6 h7 =>
    rename_i k1 st1
    intro fuelR hfuel
    obtain ⟨f2, rfl⟩ : ∃ f2, fuelR = f2 + 1 :=
      ⟨fuelR - 1, (Nat.succ_pred_eq_of_pos (by simpa using hfuel)).symm⟩
    refine ⟨[], ?_, st1.nodeId, ?_, ?_⟩
    · show reconstructChain M (f2 + 1) (some k1) = [st1]
      unfold reconstructChain
      rw [hget]
      dsimp only
      rw [h5]
      cases f2 <;> rfl
    · simp only [List.reverse_singleton, List.map_cons, List.map_nil,
        List.filterMap_cons, h6, List.filterMap_nil]
      exact PathChain.single st1.nodeId
    · simp [h6, h7]
  | step hget h1 h2 h3 h3b h4 h5 h6 h7 h8 h8b h9 hpk hnm hc ih =>
    rename_i k1 st1 p1 e1 pk1 pst1 keys1
    intro fuelR hfuel
    obtain ⟨f2, rfl⟩ : ∃ f2, fuelR = f2 + 1 :=
      ⟨fuelR - 1, (Nat.succ_pred_eq_of_pos (by simp at hfuel; omega)).symm⟩
    have hfuel2 : keys1.length ≤ f2 := by
      simp at hfuel
      omega
    obtain ⟨sts2, hrec2, a2, hchain2, hdist2⟩ := ih hfuel2
    refine ⟨pst1 :: sts2, ?_, a2, ?_, ?_⟩
    · show reconstructChain M (f2 + 1) (some k1) = st1 :: pst1 :: sts2
      unfold reconstructChain
      rw [hget]
      dsimp only
      rw [h6, hrec2]
    · rw [show ((st1 :: pst1 :: sts2).reverse) = ((pst1 :: sts2).reverse) ++ [st1] from
        by simp]
      rw [List.map_append, List.filterMap_append]
      simp only [List.map_cons, List.map_nil, List.filterMap_cons, h5,
        List.filterMap_nil]
      exact hchain2.append_edge e1 (by rw [h7, h8b]) h8
    · rw [show ((st1 :: pst1 :: sts2).reverse) = ((pst1 :: sts2).reverse) ++ [st1] from
        by simp]
      rw [List.filterMap_append]
      simp only [List.filterMap_cons, h5, List.filterMap_nil]
      rw [List.map_append, List.sum_append]
      simp [h9, hdist2]


/-! ## Relaxation-fold lemmas -/

/-- One relaxation step either skips (an at-least-as-good cost is already
recorded) or pushes: records the new best cost and state and appends the
pushed state. -/
lemma relaxEdge_cases (graph : RoadGraph) (weights : RouteObjectiveWeights)
    (current : PathState)
    (acc : KMap String ℝ × KMap String PathState × List PathState)
    (e : TraversableEdge) :
    (relaxEdge graph weights current acc e = acc ∧
      ∃ b, mapGet acc.1 (pushedState graph weights current e).key = some b ∧
        b ≤ (pushedState graph weights current e).cost) ∨
    (relaxEdge graph weights current acc e =
      (mapSet acc.1 (pushedState graph weights current e).key
          (pushedState graph weights current e).cost,
        mapSet acc.2.1 (pushedState graph weights current e).key
          (pushedState graph weights current e),
        acc.2.2 ++ [pushedState graph weights current e]) ∧
      (mapGet acc.1 (pushedState graph weights current e).key = none ∨
        ∃ b, mapGet acc.1 (pushedState graph weights current e).key = some b ∧
          (pushedState graph weights current e).cost < b)) := by
  unfold relaxEdge
  dsimp only
  rcases hb : mapGet acc.1 (createKey e.toNodeId (some current.nodeId)) with - | b
  · exact Or.inr ⟨rfl, Or.inl hb⟩
  · dsimp only
    by_cases hle : b ≤ current.cost + relaxCost graph weights current e
    · rw [if_pos hle]
      exact Or.inl ⟨rfl, b, hb, hle⟩
    · rw [if_neg hle]
      exact Or.inr ⟨rfl, Or.inr ⟨b, hb, lt_of_not_le hle⟩⟩

lemma fold_pushes_mono (graph : RoadGraph) (weights : RouteObjectiveWeights)
    (current : PathState) :
    ∀ (edges : List TraversableEdge)
      (acc : KMap String ℝ × KMap String PathState × List PathState),
      ∀ n ∈ acc.2.2, n ∈ (edges.foldl (relaxEdge graph weights current) acc).2.2 := by
  intro edges
  induction edges with
  | nil => intro acc n hn; exact hn
  | cons e es ih =>
    intro acc n hn
    rw [List.foldl_cons]
    refine ih _ n ?_
    rcases relaxEdge_cases graph weights current acc e with ⟨heq, -⟩ | ⟨heq, -⟩
    · rw [heq]; exact hn
    · rw [heq]; exact List.mem_append_left _ hn

lemma fold_pushes_shape (graph : RoadGraph) (weights : RouteObjectiveWeights)
    (current : PathState) :
    ∀ (edges : List TraversableEdge)
      (acc : KMap String ℝ × KMap String PathState × List PathState),
      ∀ n ∈ (edges.foldl (relaxEdge graph weights current) acc).2.2,
        n ∈ acc.2.2 ∨ ∃ e ∈ edges, n = pushedState graph weights current e := by
  intro edges
  induction edges with
  | nil => intro acc n hn; exact Or.inl hn
  | cons e es ih =>
    intro acc n hn
    rw [List.foldl_cons] at hn
    rcases ih _ n hn with h1 | ⟨e2, he2, h2⟩
    · rcases relaxEdge_cases graph weights current acc e with ⟨heq, -⟩ | ⟨heq, -⟩
      · rw [heq] at h1
        exact Or.inl h1
      · rw [heq] at h1
        rcases List.mem_append.mp h1 with h1 | h1
        · exact Or.inl h1
        · exact Or.inr ⟨e, List.mem_cons_self _ _, List.mem_singleton.mp h1⟩
    · exact Or.inr ⟨e2, List.mem_cons_of_mem _ he2, h2⟩

lemma fold_best_mono (graph : RoadGraph) (weights : RouteObjectiveWeights)
    (current : PathState) :
    ∀ (edges : List TraversableEdge)
      (acc : KMap String ℝ × KMap String PathState × List PathState)
      (k : String) (b : ℝ), mapGet acc.1 k = some b →
      ∃ b2, mapGet (edges.foldl (relaxEdge graph weights current) acc).1 k = some b2 ∧
        b2 ≤ b := by
  intro edges
  induction edges with
  | nil => intro acc k b hb; exact ⟨b, hb, le_refl b⟩
  | cons e es ih =>
    intro acc k b hb
    rw [List.foldl_cons]
    rcases relaxEdge_cases graph weights current acc e with ⟨heq, -⟩ | ⟨heq, hcase⟩
    · rw [heq]
      exact ih _ k b hb
    · rw [heq]
      by_cases hk : (pushedState graph weights current e).key = k
      · rcases hcase with hnone | ⟨b2, hb2, hlt⟩
        · rw [hk] at hnone
          rw [hb] at hnone
          exact Option.noConfusion hnone
        · rw [hk] at hb2
          rw [hb] at hb2
          rcases Option.some.inj hb2 with rfl
          have hself : mapGet (mapSet acc.1 (pushedState graph weights current e).key
              (pushedState graph weights current e).cost,
              mapSet acc.2.1 (pushedState graph weights current e).key
                (pushedState graph weights current e),
              acc.2.2 ++ [pushedState graph weights current e]).1 k =
              some (pushedState graph weights current e).cost := by
            show mapGet (mapSet acc.1 (pushedState graph weights current e).key
              (pushedState graph weights current e).cost) k = _
            rw [← hk]
            exact mapGet_set_self _ _ _
          obtain ⟨b3, hb3, hle3⟩ := ih _ k _ hself
          exact ⟨b3, hb3, le_trans hle3 (le_of_lt hlt)⟩
      · refine ih _ k b ?_
        show mapGet (mapSet acc.1 (pushedState graph weights current e).key
          (pushedState graph weights current e).cost) k = some b
        rw [mapGet_set_ne _ _ _ _ (fun hc => hk hc.symm)]
        exact hb

/-- After the fold, the recorded best cost toward each relaxed edge's target
state is at most the cost through the popped state. -/
lemma fold_relax_bound (graph : RoadGraph) (weights : RouteObjectiveWeights)
    (current : PathState) :
    ∀ (edges : List TraversableEdge)
      (acc : KMap String ℝ × KMap String PathState × List PathState),
      ∀ e ∈ edges,
        ∃ b, mapGet (edges.foldl (relaxEdge graph weights current) acc).1
            (pushedState graph weights current e).key = some b ∧
          b ≤ (pushedState graph weights current e).cost := by
  intro edges
  induction edges with
  | nil => intro acc e he; simp at he
  | cons e2 es ih =>
    intro acc e he
    rw [List.foldl_cons]
    rcases List.mem_cons.mp he with rfl | he
    · rcases relaxEdge_cases graph weights current acc e with ⟨heq, b, hb, hle⟩ |
        ⟨heq, -⟩
      · rw [heq]
        obtain ⟨b2, hb2, hle2⟩ := fold_best_mono graph weights current es acc _ b hb
        exact ⟨b2, hb2, le_trans hle2 hle⟩
      · rw [heq]
        have hself : mapGet (mapSet acc.1 (pushedState graph weights current e).key
            (pushedState graph weights current e).cost,
            mapSet acc.2.1 (pushedState graph weights current e).key
              (pushedState graph weights current e),
            acc.2.2 ++ [pushedState graph weights current e]).1
            (pushedState graph weights current e).key =
            some (pushedState graph weights current e).cost := by
          show mapGet (mapSet acc.1 (pushedState graph weights current e).key
            (pushedState graph weights current e).cost) _ = _
          exact mapGet_set_self _ _ _
        obtain ⟨b2, hb2, hle2⟩ := fold_best_mono graph weights current es _ _ _ hself
        exact ⟨b2, hb2, hle2⟩
    · exact ih _ e he

/-- Keys whose recorded best cost is at most the popped state's cost are
never pushed to by the fold, and their best/state entries are untouched;
the popped state's own cost is a floor for every push. -/
lemma fold_P_preserved (graph : RoadGraph) (weights : RouteObjectiveWeights)
    (current : PathState) (P : List String) :
    ∀ (edges : List TraversableEdge)
      (acc : KMap String ℝ × KMap String PathState × List PathState),
      (∀ e ∈ edges, 0 ≤ relaxCost graph weights current e) →
      (∀ k ∈ P, ∃ b, mapGet acc.1 k = some b ∧ b ≤ current.cost) →
      (∀ k ∈ P,
        (mapGet (edges.foldl (relaxEdge graph weights current) acc).2.1 k =
          mapGet acc.2.1 k) ∧
        ∃ b, mapGet (edges.foldl (relaxEdge graph weights current) acc).1 k =
          some b ∧ b ≤ current.cost) ∧
      (∀ n ∈ (edges.foldl (relaxEdge graph weights current) acc).2.2,
        n ∈ acc.2.2 ∨ n.key ∉ P) := by
  intro edges
  induction edges with
  | nil =>
    intro acc hrc hP
    exact ⟨fun k hk => ⟨rfl, hP k hk⟩, fun n hn => Or.inl hn⟩
  | cons e es ih =>
    intro acc hrc hP
    rw [List.foldl_cons]
    have hrc2 : ∀ e2 ∈ es, 0 ≤ relaxCost graph weights current e2 :=
      fun e2 he2 => hrc e2 (List.mem_cons_of_mem _ he2)
    rcases relaxEdge_cases graph weights current acc e with ⟨heq, -⟩ | ⟨heq, hcase⟩
    · rw [heq]
      exact ih acc hrc2 hP
    · have hkey_notP : (pushedState graph weights current e).key ∉ P := by
        intro hkP
        obtain ⟨b, hb, hble⟩ := hP _ hkP
        have hcost : current.cost ≤ (pushedState graph weights current e).cost := by
          show current.cost ≤ current.cost + relaxCost graph weights current e
          have := hrc e (List.mem_cons_self _ _)
          linarith
        rcases hcase with hnone | ⟨b2, hb2, hlt⟩
        · rw [hb] at hnone
          exact Option.noConfusion hnone
        · rw [hb] at hb2
          rcases Option.some.inj hb2 with rfl
          exact absurd (lt_of_lt_of_le hlt hble) (not_lt.mpr hcost)
      rw [heq]
      have hP2 : ∀ k ∈ P, ∃ b, mapGet (mapSet acc.1
          (pushedState graph weights current e).key
          (pushedState graph weights current e).cost) k = some b ∧
          b ≤ current.cost := by
        intro k hk
        obtain ⟨b, hb, hble⟩ := hP k hk
        refine ⟨b, ?_, hble⟩
        rw [mapGet_set_ne _ _ _ _ (fun hc => hkey_notP (by rw [← hc]; exact hk))]
        exact hb
      obtain ⟨hPa, hPb⟩ := ih (mapSet acc.1 (pushedState graph weights current e).key
          (pushedState graph weights current e).cost,
        mapSet acc.2.1 (pushedState graph weights current e).key
          (pushedState graph weights current e),
        acc.2.2 ++ [pushedState graph weights current e]) hrc2 hP2
      refine ⟨?_, ?_⟩
      · intro k hk
        obtain ⟨huntouched, hbest⟩ := hPa k hk
        refine ⟨?_, hbest⟩
        rw [huntouched]
        dsimp only
        rw [mapGet_set_ne _ _ _ _ (fun hc => hkey_notP (by rw [← hc]; exact hk))]
      · intro n hn
        rcases hPb n hn with h1 | h1
        · rcases List.mem_append.mp h1 with h1 | h1
          · exact Or.inl h1
          · rcases List.mem_singleton.mp h1 with rfl
            exact Or.inr hkey_notP
        · exact Or.inr h1



/-- Per-key effect of the fold: a key is either untouched (state and best
entries unchanged) or holds a freshly pushed state that strictly improved
the previously recorded best cost. -/
lemma fold_key_cases (graph : RoadGraph) (weights : RouteObjectiveWeights)
    (current : PathState) :
    ∀ (edges : List TraversableEdge)
      (acc : KMap String ℝ × KMap String PathState × List PathState) (k : String),
      (mapGet (edges.foldl (relaxEdge graph weights current) acc).2.1 k =
          mapGet acc.2.1 k ∧
        mapGet (edges.foldl (relaxEdge graph weights current) acc).1 k =
          mapGet acc.1 k) ∨
      (∃ n, n ∈ (edges.foldl (relaxEdge graph weights current) acc).2.2 ∧
        n.key = k ∧
        mapGet (edges.foldl (relaxEdge graph weights current) acc).2.1 k = some n ∧
        mapGet (edges.foldl (relaxEdge graph weights current) acc).1 k =
          some n.cost ∧
        (mapGet acc.1 k = none ∨
          ∃ bOld, mapGet acc.1 k = some bOld ∧ n.cost < bOld)) := by
  intro edges
  induction edges with
  | nil => intro acc k; exact Or.inl ⟨rfl, rfl⟩
  | cons e es ih =>
    intro acc k
    rw [List.foldl_cons]
    rcases relaxEdge_cases graph weights current acc e with ⟨heq, -⟩ | ⟨heq, hcase⟩
    · rw [heq]
      exact ih acc k
    · rw [heq]
      by_cases hk : (pushedState graph weights current e).key = k
      · rcases ih (mapSet acc.1 (pushedState graph weights current e).key
            (pushedState graph weights current e).cost,
          mapSet acc.2.1 (pushedState graph weights current e).key
            (pushedState graph weights current e),
          acc.2.2 ++ [pushedState graph weights current e]) k with ⟨hM, hB⟩ |
          ⟨n, hn, hkn, hMn, hBn, hold⟩
        · refine Or.inr ⟨pushedState graph weights current e, ?_, hk, ?_, ?_, ?_⟩
          · refine fold_pushes_mono graph weights current es _ _ ?_
            exact List.mem_append_right _ (List.mem_singleton.mpr rfl)
          · rw [hM]
            show mapGet (mapSet acc.2.1 (pushedState graph weights current e).key
              (pushedState graph weights current e)) k = _
            rw [← hk]
            exact mapGet_set_self _ _ _
          · rw [hB]
            show mapGet (mapSet acc.1 (pushedState graph weights current e).key
              (pushedState graph weights current e).cost) k = _
            rw [← hk]
            exact mapGet_set_self _ _ _
          · rcases hcase with hnone | ⟨bOld, hbOld, hlt⟩
            · rw [← hk]
              exact Or.inl hnone
            · rw [← hk]
              exact Or.inr ⟨bOld, hbOld, hlt⟩
        · refine Or.inr ⟨n, hn, hkn, hMn, hBn, ?_⟩
          rcases hold with hnone | ⟨bOld, hbOld, hlt⟩
          · exfalso
            have : mapGet (mapSet acc.1 (pushedState graph weights current e).key
                (pushedState graph weights current e).cost) k =
                some (pushedState graph weights current e).cost := by
              rw [← hk]
              exact mapGet_set_self _ _ _
            rw [show mapGet (mapSet acc.1 (pushedState graph weights current e).key
              (pushedState graph weights current e).cost,
              mapSet acc.2.1 (pushedState graph weights current e).key
                (pushedState graph weights current e),
              acc.2.2 ++ [pushedState graph weights current e]).1 k =
              mapGet (mapSet acc.1 (pushedState graph weights current e).key
                (pushedState graph weights current e).cost) k from rfl] at hnone
            rw [this] at hnone
            exact Option.noConfusion hnone
          · have hb2 : mapGet (mapSet acc.1 (pushedState graph weights current e).key
                (pushedState graph weights current e).cost) k =
                some (pushedState graph weights current e).cost := by
              rw [← hk]
              exact mapGet_set_self _ _ _
            have : bOld = (pushedState graph weights current e).cost := by
              have := hbOld
              rw [show mapGet (mapSet acc.1 (pushedState graph weights current e).key
                (pushedState graph weights current e).cost,
                mapSet acc.2.1 (pushedState graph weights current e).key
                  (pushedState graph weights current e),
                acc.2.2 ++ [pushedState graph weights current e]).1 k =
                mapGet (mapSet acc.1 (pushedState graph weights current e).key
                  (pushedState graph weights current e).cost) k from rfl] at this
              rw [hb2] at this
              exact (Option.some.inj this).symm
            rcases hcase with hnone2 | ⟨bOld2, hbOld2, hlt2⟩
            · rw [← hk]
              exact Or.inl hnone2
            · rw [← hk]
              refine Or.inr ⟨bOld2, hbOld2, ?_⟩
              rw [this] at hlt
              exact lt_trans hlt hlt2
      · rcases ih (mapSet acc.1 (pushedState graph weights current e).key
            (pushedState graph weights current e).cost,
          mapSet acc.2.1 (pushedState graph weights current e).key
            (pushedState graph weights current e),
          acc.2.2 ++ [pushedState graph weights current e]) k with ⟨hM, hB⟩ |
          ⟨n, hn, hkn, hMn, hBn, hold⟩
        · refine Or.inl ⟨?_, ?_⟩
          · rw [hM]
            show mapGet (mapSet acc.2.1 (pushedState graph weights current e).key
              (pushedState graph weights current e)) k = _
            exact mapGet_set_ne _ _ _ _ (fun hc => hk hc.symm)
          · rw [hB]
            show mapGet (mapSet acc.1 (pushedState graph weights current e).key
              (pushedState graph weights current e).cost) k = _
            exact mapGet_set_ne _ _ _ _ (fun hc => hk hc.symm)
        · refine Or.inr ⟨n, hn, hkn, hMn, hBn, ?_⟩
          rwa [show mapGet (mapSet acc.1 (pushedState graph weights current e).key
            (pushedState graph weights current e).cost,
            mapSet acc.2.1 (pushedState graph weights current e).key
              (pushedState graph weights current e),
            acc.2.2 ++ [pushedState graph weights current e]).1 k =
            mapGet (mapSet acc.1 (pushedState graph weights current e).key
              (pushedState graph weights current e).cost) k from rfl,
            mapGet_set_ne _ _ _ _ (fun hc => hk hc.symm)] at hold

/-- The per-push bookkeeping invariant: every pushed state has a recorded
best cost at most its own, and the state map holds, at its key, a state of
cost at most its own — either the push itself or a strictly better later
push. -/
lemma fold_H (graph : RoadGraph) (weights : RouteObjectiveWeights)
    (current : PathState) :
    ∀ (edges : List TraversableEdge)
      (acc : KMap String ℝ × KMap String PathState × List PathState),
      (∀ n ∈ acc.2.2, (∃ b, mapGet acc.1 n.key = some b ∧ b ≤ n.cost) ∧
        (∃ st2, mapGet acc.2.1 n.key = some st2 ∧ st2.cost ≤ n.cost ∧
          (st2 = n ∨ (st2 ∈ acc.2.2 ∧ st2.key = n.key ∧ st2.cost < n.cost)))) →
      ∀ n ∈ (edges.foldl (relaxEdge graph weights current) acc).2.2,
        (∃ b, mapGet (edges.foldl (relaxEdge graph weights current) acc).1 n.key =
          some b ∧ b ≤ n.cost) ∧
        (∃ st2, mapGet (edges.foldl (relaxEdge graph weights current) acc).2.1
            n.key = some st2 ∧ st2.cost ≤ n.cost ∧
          (st2 = n ∨ (st2 ∈ (edges.foldl (relaxEdge graph weights current) acc).2.2 ∧
            st2.key = n.key ∧ st2.cost < n.cost))) := by
  intro edges
  induction edges with
  | nil => intro acc hH n hn; exact hH n hn
  | cons e es ih =>
    intro acc hH
    rw [List.foldl_cons]
    rcases relaxEdge_cases graph weights current acc e with ⟨heq, -⟩ | ⟨heq, hcase⟩
    · rw [heq]
      exact ih acc hH
    · rw [heq]
      refine ih _ ?_
      intro n hn
      rcases List.mem_append.mp hn with hn | hn
      · obtain ⟨⟨b, hb, hble⟩, st2, hst2, hst2le, hst2or⟩ := hH n hn
        by_cases hk : (pushedState graph weights current e).key = n.key
        · have hlt : (pushedState graph weights current e).cost < b := by
            rcases hcase with hnone | ⟨b2, hb2, hlt⟩
            · rw [hk] at hnone
              rw [hb] at hnone
              exact Option.noConfusion hnone
            · rw [hk] at hb2
              rw [hb] at hb2
              rcases Option.some.inj hb2 with rfl
              exact hlt
          constructor
          · refine ⟨(pushedState graph weights current e).cost, ?_, ?_⟩
            · show mapGet (mapSet acc.1 (pushedState graph weights current e).key
                (pushedState graph weights current e).cost) n.key = _
              rw [← hk]
              exact mapGet_set_self _ _ _
            · exact le_of_lt (lt_of_lt_of_le hlt hble)
          · refine ⟨pushedState graph weights current e, ?_, ?_, ?_⟩
            · show mapGet (mapSet acc.2.1 (pushedState graph weights current e).key
                (pushedState graph weights current e)) n.key = _
              rw [← hk]
              exact mapGet_set_self _ _ _
            · exact le_of_lt (lt_of_lt_of_le hlt hble)
            · refine Or.inr ⟨List.mem_append_right _ (List.mem_singleton.mpr rfl),
                hk, lt_of_lt_of_le hlt hble⟩
        · constructor
          · refine ⟨b, ?_, hble⟩
            show mapGet (mapSet acc.1 (pushedState graph weights current e).key
              (pushedState graph weights current e).cost) n.key = _
            rw [mapGet_set_ne _ _ _ _ (fun hc => hk hc.symm)]
            exact hb
          · refine ⟨st2, ?_, hst2le, ?_⟩
            · show mapGet (mapSet acc.2.1 (pushedState graph weights current e).key
                (pushedState graph weights current e)) n.key = _
              rw [mapGet_set_ne _ _ _ _ (fun hc => hk hc.symm)]
              exact hst2
            · rcases hst2or with rfl | ⟨hmem, hkey, hcost⟩
              · exact Or.inl rfl
              · exact Or.inr ⟨List.mem_append_left _ hmem, hkey, hcost⟩
      · rcases List.mem_singleton.mp hn with rfl
        constructor
        · refine ⟨(pushedState graph weights current e).cost, ?_, le_refl _⟩
          show mapGet (mapSet acc.1 (pushedState graph weights current e).key
            (pushedState graph weights current e).cost)
            (pushedState graph weights current e).key = _
          exact mapGet_set_self _ _ _
        · refine ⟨pushedState graph weights current e, ?_, le_refl _, Or.inl rfl⟩
          show mapGet (mapSet acc.2.1 (pushedState graph weights current e).key
            (pushedState graph weights current e))
            (pushedState graph weights current e).key = _
          exact mapGet_set_self _ _ _

lemma fold_M_nodup (graph : RoadGraph) (weights : RouteObjectiveWeights)
    (current : PathState) :
    ∀ (edges : List TraversableEdge)
      (acc : KMap String ℝ × KMap String PathState × List PathState),
      (acc.2.1.map Prod.fst).Nodup →
      ((edges.foldl (relaxEdge graph weights current) acc).2.1.map Prod.fst).Nodup := by
  intro edges
  induction edges with
  | nil => intro acc h; exact h
  | cons e es ih =>
    intro acc h
    rw [List.foldl_cons]
    rcases relaxEdge_cases graph weights current acc e with ⟨heq, -⟩ | ⟨heq, -⟩
    · rw [heq]
      exact ih acc h
    · rw [heq]
      exact ih _ (mapSet_keys_nodup _ _ _ h)

lemma fold_M_length (graph : RoadGraph) (weights : RouteObjectiveWeights)
    (current : PathState) :
    ∀ (edges : List TraversableEdge)
      (acc : KMap String ℝ × KMap String PathState × List PathState),
      acc.2.1.length ≤ (edges.foldl (relaxEdge graph weights current) acc).2.1.length := by
  intro edges
  induction edges with
  | nil => intro acc; exact le_refl _
  | cons e es ih =>
    intro acc
    rw [List.foldl_cons]
    rcases relaxEdge_cases graph weights current acc e with ⟨heq, -⟩ | ⟨heq, -⟩
    · rw [heq]
      exact ih acc
    · rw [heq]
      refine le_trans ?_ (ih _)
      exact mapSet_length _ _ _

/-- If every relaxed target already has a recorded best cost at most the
cost through the popped state, the whole fold is a no-op (a stale pop). -/
lemma fold_stale_noop (graph : RoadGraph) (weights : RouteObjectiveWeights)
    (current : PathState) :
    ∀ (edges : List TraversableEdge)
      (acc : KMap String ℝ × KMap String PathState × List PathState),
      (∀ e ∈ edges, ∃ b, mapGet acc.1 (pushedState graph weights current e).key =
        some b ∧ b ≤ (pushedState graph weights current e).cost) →
      edges.foldl (relaxEdge graph weights current) acc = acc := by
  intro edges
  induction edges with
  | nil => intro acc h; rfl
  | cons e es ih =>
    intro acc h
    rw [List.foldl_cons]
    rcases relaxEdge_cases graph weights current acc e with ⟨heq, -⟩ | ⟨heq, hcase⟩
    · rw [heq]
      exact ih acc (fun e2 he2 => h e2 (List.mem_cons_of_mem _ he2))
    · exfalso
      obtain ⟨b, hb, hble⟩ := h e (List.mem_cons_self _ _)
      rcases hcase with hnone | ⟨b2, hb2, hlt⟩
      · rw [hb] at hnone
        exact Option.noConfusion hnone
      · rw [hb] at hb2
        rcases Option.some.inj hb2 with rfl
        exact absurd hlt (not_lt.mpr hble)



lemma relaxCost_congr (graph : RoadGraph) (weights : RouteObjectiveWeights)
    {s1 s2 : PathState} (hn : s1.nodeId = s2.nodeId)
    (hp : s1.previousNodeId = s2.previousNodeId) (e : TraversableEdge) :
    relaxCost graph weights s1 e = relaxCost graph weights s2 e := by
  unfold relaxCost
  rw [hn, hp]

lemma GoodChain.head_shape {M : KMap String PathState} {P : List String}
    {k : String} {st : PathState} {keys : List String}
    (h : GoodChain M P k st keys) :
    st.key = k ∧ createKey st.nodeId st.previousNodeId = k ∧ GoodId st.nodeId ∧
    ∀ q, st.previousNodeId = some q → GoodId q := by
  cases h with
  | root hget h1 h2 h3 h4 h5 h6 h7 =>
    refine ⟨h1, h2, h3, ?_⟩
    intro q hq
    rw [h4] at hq
    exact Option.noConfusion hq
  | step hget h1 h2 h3 h3b h4 h5 h6 h7 h8 h8b h9 hpk hnm hc =>
    refine ⟨h1, h2, h3, ?_⟩
    intro q hq
    rw [h4] at hq
    rcases Option.some.inj hq with rfl
    exact h3b

/-- The inductive invariant of the best-first search loop.  `P` is the
ghost list of keys already settled (popped at least once), `L` a lower
bound on every frontier cost that is also an upper bound on every settled
best cost (the cost of the most recent pop). -/
structure LoopInv (graph : RoadGraph) (weights : RouteObjectiveWeights)
    (openStates : List PathState) (best : KMap String ℝ)
    (M : KMap String PathState) (P : List String) (L : ℝ) : Prop where
  nodupM : (M.map Prod.fst).Nodup
  open_cost : ∀ st ∈ openStates, L ≤ st.cost
  open_best : ∀ st ∈ openStates, ∃ b, mapGet best st.key = some b ∧ b ≤ st.cost
  open_shape : ∀ st ∈ openStates, st.key = createKey st.nodeId st.previousNodeId ∧
    GoodId st.nodeId ∧ ∀ q, st.previousNodeId = some q → GoodId q
  open_entry : ∀ st ∈ openStates, st.key ∉ P →
    ∃ st2, mapGet M st.key = some st2 ∧ st2.cost ≤ st.cost ∧
      (st2 = st ∨ ∃ st3 ∈ openStates, st3.key = st.key ∧ st3.cost < st.cost)
  popped_best : ∀ k ∈ P, ∃ b, mapGet best k = some b ∧ b ≤ L
  popped_entry : ∀ k ∈ P, ∃ st2, mapGet M k = some st2 ∧ st2.cost ≤ L
  popped_relax : ∀ k ∈ P, ∀ st2, mapGet M k = some st2 →
    ∀ e ∈ (mapGet graph.traversableFrom st2.nodeId).getD [],
      ∃ b, mapGet best (createKey e.toNodeId (some st2.nodeId)) = some b ∧
        b ≤ st2.cost + relaxCost graph weights st2 e
  chains : ∀ k st2, mapGet M k = some st2 → ∃ keys, GoodChain M P k st2 keys



/-- Main correctness induction: from any loop state satisfying the
invariant, a successful search result is internally consistent — its edges
connect consecutive node ids and its total distance is the sum of the
traversed edge lengths. -/
lemma searchLoop_good (graph : RoadGraph) (weights : RouteObjectiveWeights)
    (startNodeId endNodeId : String)
    (hrc : ∀ (current : PathState),
      ∀ e ∈ (mapGet graph.traversableFrom current.nodeId).getD [],
        0 ≤ relaxCost graph weights current e)
    (hfrom : ∀ k, ∀ e ∈ (mapGet graph.traversableFrom k).getD [],
      e.fromNodeId = k)
    (hgood : ∀ k, ∀ e ∈ (mapGet graph.traversableFrom k).getD [],
      GoodId e.toNodeId) :
    ∀ (fuel : ℕ) (openStates : List PathState) (best : KMap String ℝ)
      (M : KMap String PathState) (P : List String) (L : ℝ),
      LoopInv graph weights openStates best M P L →
      ∀ r : PathResult,
        searchLoop graph weights startNodeId endNodeId fuel openStates best M =
          some (Except.ok r) →
        (∃ a c, PathChain a r.nodeIds r.traversedEdges c) ∧
        r.totalDistanceMeters =
          (r.traversedEdges.map (fun e => e.lengthMeters)).sum := by
  intro fuel
  induction fuel with
  | zero =>
    intro openStates best M P L hinv r hok
    simp [searchLoop] at hok
  | succ n ih =>
    intro openStates best M P L hinv r hok
    unfold searchLoop at hok
    rcases hsort : sortByCost openStates with - | ⟨s, rest⟩
    · rw [hsort] at hok
      simp at hok
    · rw [hsort] at hok
      dsimp only at hok
      have hs_open : s ∈ openStates := mem_sortByCost_iff.mp (hsort ▸ List.mem_cons_self s rest)
      have hmin : ∀ x ∈ openStates, s.cost ≤ x.cost :=
        sortByCost_head_min hsort
      have hL_le : L ≤ s.cost := hinv.open_cost s hs_open
      by_cases hgoal : s.nodeId = endNodeId
      · rw [if_pos hgoal] at hok
        rcases Option.some.inj hok with hok2
        rcases Except.ok.inj hok2 with rfl
        -- the returned result reconstructs the chain stored at `s.key`
        have hentry : ∃ st2, mapGet M s.key = some st2 := by
          by_cases hstale : s.key ∈ P
          · obtain ⟨st2, hst2, -⟩ := hinv.popped_entry s.key hstale
            exact ⟨st2, hst2⟩
          · obtain ⟨st2, hst2, -, -⟩ := hinv.open_entry s hs_open hstale
            exact ⟨st2, hst2⟩
        obtain ⟨st2, hst2⟩ := hentry
        obtain ⟨keys, hchain⟩ := hinv.chains s.key st2 hst2
        have hkeylen : keys.length ≤ M.length := by
          have h1 := hchain.keys_nodup
          have h2 := hchain.keys_in_M
          have h3 := nodup_subset_length h1 hinv.nodupM h2
          calc keys.length ≤ (M.map Prod.fst).length := h3
            _ = M.length := by rw [List.length_map]
        obtain ⟨sts, hrec, a, hpc, hdist⟩ :=
          reconstructChain_good hchain (le_trans hkeylen (Nat.le_succ _))
        unfold reconstructPath
        rw [hrec]
        refine ⟨⟨a, st2.nodeId, hpc⟩, ?_⟩
        show ((((st2 :: sts).reverse).getLast?.map
          (fun state => state.distanceMeters)).getD 0) = _
        rw [List.getLast?_reverse]
        show (some (st2.distanceMeters)).getD 0 = _
        rw [hdist]
        rfl
      · rw [if_neg hgoal] at hok
        -- the recursive case: a fresh or a stale pop
        by_cases hstale : s.key ∈ P
        · -- stale pop: every relaxation is blocked, the fold is a no-op
          obtain ⟨st2, hst2, hst2L⟩ := hinv.popped_entry s.key hstale
          obtain ⟨keys2, hchain2⟩ := hinv.chains s.key st2 hst2
          obtain ⟨hk2a, hk2b, hk2c, hk2d⟩ := hchain2.head_shape
          obtain ⟨hsa, hsb, hsc⟩ := hinv.open_shape s hs_open
          obtain ⟨hnodeeq, hpreveq⟩ :=
            createKey_inj hsb hk2c hsc hk2d (by rw [← hsa, ← hk2b])
          have hblocked : ∀ e ∈ (mapGet graph.traversableFrom s.nodeId).getD [],
              ∃ b, mapGet best (pushedState graph weights s e).key = some b ∧
                b ≤ (pushedState graph weights s e).cost := by
            intro e he
            have he2 : e ∈ (mapGet graph.traversableFrom st2.nodeId).getD [] := by
              rw [← hnodeeq]
              exact he
            obtain ⟨b, hb, hble⟩ := hinv.popped_relax s.key hstale st2 hst2 e he2
            refine ⟨b, ?_, ?_⟩
            · show mapGet best (createKey e.toNodeId (some s.nodeId)) = some b
              rw [hnodeeq]
              exact hb
            · show b ≤ s.cost + relaxCost graph weights s e
              rw [relaxCost_congr graph weights hnodeeq hpreveq e]
              have : st2.cost ≤ s.cost := le_trans hst2L hL_le
              linarith
          rw [fold_stale_noop graph weights s _ _ hblocked] at hok
          rw [List.append_nil] at hok
          refine ih rest best M P s.cost ?_ r hok
          refine ⟨hinv.nodupM, ?_, ?_, ?_, ?_, ?_, ?_, hinv.popped_relax, hinv.chains⟩
          · intro st hst
            exact hmin st (mem_sortByCost_iff.mp (hsort ▸ List.mem_cons_of_mem s hst))
          · intro st hst
            exact hinv.open_best st
              (mem_sortByCost_iff.mp (hsort ▸ List.mem_cons_of_mem s hst))
          · intro st hst
            exact hinv.open_shape st
              (mem_sortByCost_iff.mp (hsort ▸ List.mem_cons_of_mem s hst))
          · intro st hst hstP
            have hst_open : st ∈ openStates :=
              mem_sortByCost_iff.mp (hsort ▸ List.mem_cons_of_mem s hst)
            obtain ⟨st3, hst3, hst3le, hst3or⟩ := hinv.open_entry st hst_open hstP
            refine ⟨st3, hst3, hst3le, ?_⟩
            rcases hst3or with rfl | ⟨st4, hst4, hst4k, hst4c⟩
            · exact Or.inl rfl
            · right
              refine ⟨st4, ?_, hst4k, hst4c⟩
              have hst4sorted : st4 ∈ s :: rest := hsort ▸ mem_sortByCost_iff.mpr hst4
              rcases List.mem_cons.mp hst4sorted with rfl | hst4rest
              · exact absurd (hst4k ▸ hstale) (hst4k ▸ hstP)
              · exact hst4rest
          · intro k hk
            obtain ⟨b, hb, hble⟩ := hinv.popped_best k hk
            exact ⟨b, hb, le_trans hble hL_le⟩
          · intro k hk
            obtain ⟨st3, hst3, hle3⟩ := hinv.popped_entry k hk
            exact ⟨st3, hst3, le_trans hle3 hL_le⟩
        · -- fresh pop: the popped state is the recorded entry for its key
          have hMs : mapGet M s.key = some s := by
            obtain ⟨st2, hst2, hst2le, hst2or⟩ := hinv.open_entry s hs_open hstale
            rcases hst2or with rfl | ⟨st3, hst3, hst3k, hst3c⟩
            · exact hst2
            · exact absurd hst3c (not_lt.mpr (hmin st3 hst3))
          have hE := hrc s
          have hP'bound : ∀ k ∈ P ++ [s.key],
              ∃ b, mapGet best k = some b ∧ b ≤ s.cost := by
            intro k hk
            rcases List.mem_append.mp hk with hk | hk
            · obtain ⟨b, hb, hble⟩ := hinv.popped_best k hk
              exact ⟨b, hb, le_trans hble hL_le⟩
            · rcases List.mem_singleton.mp hk with rfl
              exact hinv.open_best s hs_open
          obtain ⟨hPfacts, hPpush⟩ := fold_P_preserved graph weights s (P ++ [s.key])
            ((mapGet graph.traversableFrom s.nodeId).getD []) (best, M, []) hE hP'bound
          have hHfacts := fold_H graph weights s
            ((mapGet graph.traversableFrom s.nodeId).getD []) (best, M, [])
            (by intro n hn; simp at hn)
          refine ih (rest ++ (((mapGet graph.traversableFrom s.nodeId).getD []).foldl
              (relaxEdge graph weights s) (best, M, [])).2.2) _ _ (P ++ [s.key]) s.cost
            ?_ r hok
          set E := (mapGet graph.traversableFrom s.nodeId).getD [] with hEdef
          set F := E.foldl (relaxEdge graph weights s) (best, M, []) with hFdef
          have hrest_open : ∀ st ∈ rest, st ∈ openStates := fun st hst =>
            mem_sortByCost_iff.mp (hsort ▸ List.mem_cons_of_mem s hst)
          have hpush_shape : ∀ n ∈ F.2.2, ∃ e ∈ E, n = pushedState graph weights s e := by
            intro n hn
            rcases fold_pushes_shape graph weights s E (best, M, []) n hn with h1 | h1
            · simp at h1
            · exact h1
          have hpush_notP : ∀ n ∈ F.2.2, n.key ∉ P ++ [s.key] := by
            intro n hn
            rcases hPpush n hn with h1 | h1
            · simp at h1
            · exact h1
          refine ⟨?_, ?_, ?_, ?_, ?_, ?_, ?_, ?_, ?_⟩
          · exact fold_M_nodup graph weights s E (best, M, []) hinv.nodupM
          · intro st hst
            rcases List.mem_append.mp hst with hst | hst
            · exact hmin st (hrest_open st hst)
            · obtain ⟨e, he, rfl⟩ := hpush_shape st hst
              show s.cost ≤ s.cost + relaxCost graph weights s e
              have := hE e he
              linarith
          · intro st hst
            rcases List.mem_append.mp hst with hst | hst
            · obtain ⟨b, hb, hble⟩ := hinv.open_best st (hrest_open st hst)
              obtain ⟨b2, hb2, hble2⟩ := fold_best_mono graph weights s E (best, M, [])
                st.key b hb
              exact ⟨b2, hb2, le_trans hble2 hble⟩
            · exact (hHfacts st hst).1
          · intro st hst
            rcases List.mem_append.mp hst with hst | hst
            · exact hinv.open_shape st (hrest_open st hst)
            · obtain ⟨e, he, rfl⟩ := hpush_shape st hst
              refine ⟨rfl, hgood s.nodeId e he, ?_⟩
              intro q hq
              rcases Option.some.inj hq with rfl
              exact (hinv.open_shape s hs_open).2.1
          · intro st hst hstP
            rcases List.mem_append.mp hst with hst | hst
            · rcases fold_key_cases graph weights s E (best, M, []) st.key with
                ⟨hMeq, hBeq⟩ | ⟨n2, hn2, hn2k, hn2M, hn2B, hn2old⟩
              · have hstP0 : st.key ∉ P := fun hc =>
                  hstP (List.mem_append_left _ hc)
                obtain ⟨st2, hst2, hst2le, hst2or⟩ :=
                  hinv.open_entry st (hrest_open st hst) hstP0
                refine ⟨st2, by rw [hFdef, hMeq]; exact hst2, hst2le, ?_⟩
                rcases hst2or with rfl | ⟨st3, hst3, hst3k, hst3c⟩
                · exact Or.inl rfl
                · right
                  refine ⟨st3, ?_, hst3k, hst3c⟩
                  have hst3sorted : st3 ∈ s :: rest := hsort ▸ mem_sortByCost_iff.mpr hst3
                  rcases List.mem_cons.mp hst3sorted with rfl | hst3rest
                  · exact absurd (List.mem_append_right _ (List.mem_singleton.mpr
                      hst3k.symm)) hstP
                  · exact List.mem_append_left _ hst3rest
              · obtain ⟨b, hb, hble⟩ := hinv.open_best st (hrest_open st hst)
                have hlt : n2.cost < b := by
                  rcases hn2old with hnone | ⟨bOld, hbOld, hlt⟩
                  · exfalso
                    rw [show mapGet (best, M,
                      ([] : List PathState)).1 st.key = mapGet best st.key from rfl] at hnone
                    rw [hb] at hnone
                    exact Option.noConfusion hnone
                  · rw [show mapGet (best, M,
                      ([] : List PathState)).1 st.key = mapGet best st.key from rfl] at hbOld
                    rw [hb] at hbOld
                    rcases Option.some.inj hbOld with rfl
                    exact hlt
                refine ⟨n2, by rw [hFdef]; exact hn2M, le_of_lt (lt_of_lt_of_le hlt hble), ?_⟩
                right
                exact ⟨n2, List.mem_append_right _ hn2, hn2k,
                  lt_of_lt_of_le hlt hble⟩
            · obtain ⟨-, st2, hst2, hst2le, hst2or⟩ := hHfacts st hst
              refine ⟨st2, hst2, hst2le, ?_⟩
              rcases hst2or with rfl | ⟨hmem, hkey, hcost⟩
              · exact Or.inl rfl
              · exact Or.inr ⟨st2, List.mem_append_right _ hmem, hkey, hcost⟩
          · intro k hk
            obtain ⟨-, b, hb, hble⟩ := hPfacts k hk
            exact ⟨b, hb, hble⟩
          · intro k hk
            obtain ⟨huntouched, -⟩ := hPfacts k hk
            rcases List.mem_append.mp hk with hkP | hks
            · obtain ⟨st3, hst3, hle3⟩ := hinv.popped_entry k hkP
              refine ⟨st3, ?_, le_trans hle3 hL_le⟩
              rw [huntouched]
              exact hst3
            · rcases List.mem_singleton.mp hks with rfl
              refine ⟨s, ?_, le_refl _⟩
              rw [huntouched]
              exact hMs
          · intro k hk st2 hst2
            obtain ⟨huntouched, -⟩ := hPfacts k hk
            rw [huntouched] at hst2
            rcases List.mem_append.mp hk with hkP | hks
            · intro e he
              obtain ⟨b, hb, hble⟩ := hinv.popped_relax k hkP st2 hst2 e he
              obtain ⟨b2, hb2, hble2⟩ := fold_best_mono graph weights s E (best, M, [])
                _ b hb
              exact ⟨b2, hb2, le_trans hble2 hble⟩
            · rcases List.mem_singleton.mp hks with rfl
              rw [hMs] at hst2
              rcases Option.some.inj hst2 with rfl
              intro e he
              obtain ⟨b, hb, hble⟩ := fold_relax_bound graph weights s E (best, M, []) e he
              exact ⟨b, hb, hble⟩
          · intro k st2 hst2
            rw [hFdef] at hst2
            rcases fold_key_cases graph weights s E (best, M, []) k with
              ⟨hMeq, -⟩ | ⟨n2, hn2, hn2k, hn2M, -, -⟩
            · rw [hMeq] at hst2
              obtain ⟨keys, hchain⟩ := hinv.chains k st2 hst2
              refine ⟨keys, ?_⟩
              refine GoodChain.mono_P (fun x hx => List.mem_append_left _ hx) ?_
              refine hchain.congr ?_
              intro k2 hk2
              rcases hchain.keys_sub k2 hk2 with rfl | hk2P
              · exact hMeq
              · exact (hPfacts k2 (List.mem_append_left _ hk2P)).1
            · rw [hn2M] at hst2
              rcases Option.some.inj hst2 with rfl
              rcases hn2k with rfl
              obtain ⟨e, he, hne⟩ := hpush_shape n2 hn2
              rcases hne with rfl
              obtain ⟨keys_s, hchain_s⟩ := hinv.chains s.key s hMs
              have hchain_s2 : GoodChain F.2.1 (P ++ [s.key]) s.key s keys_s := by
                refine GoodChain.mono_P (fun x hx => List.mem_append_left _ hx) ?_
                refine hchain_s.congr ?_
                intro k2 hk2
                rcases hchain_s.keys_sub k2 hk2 with rfl | hk2P
                · exact (hPfacts s.key (List.mem_append_right _
                    (List.mem_singleton.mpr rfl))).1
                · exact (hPfacts k2 (List.mem_append_left _ hk2P)).1
              refine ⟨(pushedState graph weights s e).key :: keys_s, ?_⟩
              refine GoodChain.step ?_ rfl rfl (hgood s.nodeId e he)
                (hinv.open_shape s hs_open).2.1 rfl rfl rfl
                (hfrom s.nodeId e he) rfl rfl rfl
                (List.mem_append_right _ (List.mem_singleton.mpr rfl)) ?_ hchain_s2
              · exact hn2M
              · intro hcmem
                rcases hchain_s.keys_sub _ hcmem with heq | hmemP
                · refine hpush_notP _ hn2 ?_
                  rw [heq]
                  exact List.mem_append_right _ (List.mem_singleton.mpr rfl)
                · exact hpush_notP _ hn2 (List.mem_append_left _ hmemP)



lemma cost_eCB :
    scoreEdgeTraversal (reverseEdge edgeBC) DEFAULT_ROUTE_OBJECTIVE_WEIGHTS = 50 := by
  unfold scoreEdgeTraversal reverseEdge forwardEdge edgeBC DEFAULT_ROUTE_OBJECTIVE_WEIGHTS
  norm_num

lemma rBC_from : (reverseEdge edgeBC).fromNodeId = "C" := rfl

lemma rBC_to : (reverseEdge edgeBC).toNodeId = "B" := rfl

/-- The dot-product angle is never negative: either a degenerate vector maps
to `0`, or an arccosine (nonnegative) is scaled by nonnegative factors. -/
lemma angleBetweenDegrees_nonneg (a b c : Coordinate) :
    0 ≤ angleBetweenDegrees a b c := by
  unfold angleBetweenDegrees
  dsimp only
  split_ifs
  · exact le_refl 0
  · exact div_nonneg (mul_nonneg (Real.arccos_nonneg _) (by norm_num))
      (le_of_lt Real.pi_pos)

/-- With nonnegative turn weights the turn score is nonnegative. -/
lemma scoreTurn_nonneg (a b c : Coordinate) (w : RouteObjectiveWeights)
    (ht : 0 ≤ w.turns) (hu : 0 ≤ w.uTurn) :
    0 ≤ scoreTurn a b c w := by
  unfold scoreTurn
  dsimp only
  have h1 := angleBetweenDegrees_nonneg a b c
  have h2 : 0 ≤ angleBetweenDegrees a b c / 180 * 100 * w.turns :=
    mul_nonneg (mul_nonneg (div_nonneg h1 (by norm_num)) (by norm_num)) ht
  have h3 : 0 ≤ (if angleBetweenDegrees a b c > 165 then 100 * w.uTurn else 0) := by
    split_ifs
    · exact mul_nonneg (by norm_num) hu
    · exact le_refl 0
  linarith

/-- Every adjacency bucket of the A-B-C graph holds only the four directed
edges built from `edgeAB` and `edgeBC`. -/
lemma abc_bucket (n : String) (e : TraversableEdge)
    (he : e ∈ (mapGet abcGraph.traversableFrom n).getD []) :
    e = forwardEdge edgeAB ∨ e = reverseEdge edgeAB ∨ e = forwardEdge edgeBC ∨
      e = reverseEdge edgeBC := by
  rw [abc_trav] at he
  simp only [mapGet] at he
  split_ifs at he <;> simp_all
  tauto

/-- In the A-B-C graph each bucket's edges leave the bucket's key node. -/
lemma abc_hfrom : ∀ k, ∀ e ∈ (mapGet abcGraph.traversableFrom k).getD [],
    e.fromNodeId = k := by
  intro k e he
  rw [abc_trav] at he
  simp only [mapGet] at he
  split_ifs at he with h1 h2 h3
  · have h4 : e = forwardEdge edgeAB := by simpa using he
    rw [h4, ← h1]
    exact fAB_from
  · have h4 : e = reverseEdge edgeAB ∨ e = forwardEdge edgeBC := by simpa using he
    rcases h4 with rfl | rfl
    · rw [← h2]
      exact rAB_from
    · rw [← h2]
      exact fBC_from
  · have h4 : e = reverseEdge edgeBC := by simpa using he
    rw [h4, ← h3]
    exact rBC_from
  · simp at he

/-- In the A-B-C graph every bucket edge points at a node id free of the
`"|"` separator and distinct from the reserved `"start"` token. -/
lemma abc_hgood : ∀ k, ∀ e ∈ (mapGet abcGraph.traversableFrom k).getD [],
    GoodId e.toNodeId := by
  intro k e he
  rcases abc_bucket k e he with rfl | rfl | rfl | rfl
  · rw [fAB_to]
    exact ⟨by decide, by decide⟩
  · rw [rAB_to]
    exact ⟨by decide, by decide⟩
  · rw [fBC_to]
    exact ⟨by decide, by decide⟩
  · rw [rBC_to]
    exact ⟨by decide, by decide⟩

/-- On the A-B-C graph every relaxation increment is nonnegative: the edge
scores evaluate to the edge lengths and the turn score is nonnegative. -/
lemma abc_hrc : ∀ current : PathState,
    ∀ e ∈ (mapGet abcGraph.traversableFrom current.nodeId).getD [],
      0 ≤ relaxCost abcGraph DEFAULT_ROUTE_OBJECTIVE_WEIGHTS current e := by
  intro current e he
  have hs : 0 ≤ scoreEdgeTraversal e DEFAULT_ROUTE_OBJECTIVE_WEIGHTS := by
    rcases abc_bucket _ e he with rfl | rfl | rfl | rfl
    · rw [cost_eAB]; norm_num
    · rw [cost_eBA]; norm_num
    · rw [cost_eBC]; norm_num
    · rw [cost_eCB]; norm_num
  unfold relaxCost
  split
  · exact hs
  · split
    · exact add_nonneg hs (scoreTurn_nonneg _ _ _ _
        (by norm_num [DEFAULT_ROUTE_OBJECTIVE_WEIGHTS])
        (by norm_num [DEFAULT_ROUTE_OBJECTIVE_WEIGHTS]))
    · exact hs

/-- **C3 (amended)**: the claim as written is unconditional and false — see
the key-collision counterexample, where colliding composite keys re-parent
the reconstruction chain.  Under well-formedness side conditions on the
graph the invariants do hold: relaxation increments are nonnegative, each
adjacency bucket's edges depart from the bucket's key, and the node ids
reachable through buckets (and the start id) avoid the `"|"` separator and
the reserved `"start"` token, so the string-concatenated state keys are
injective.  Then every successful result is internally consistent: the
`i`-th traversed edge goes from `nodeIds[i]` to `nodeIds[i+1]`, and
`totalDistanceMeters` is the sum of the traversed edges' `lengthMeters`. -/
theorem C3_findPath_result_invariants (fuel : ℕ) (graph : RoadGraph)
    (weights : RouteObjectiveWeights) (startNodeId endNodeId : String)
    (hrc : ∀ current : PathState,
      ∀ e ∈ (mapGet graph.traversableFrom current.nodeId).getD [],
        0 ≤ relaxCost graph weights current e)
    (hfrom : ∀ k, ∀ e ∈ (mapGet graph.traversableFrom k).getD [],
      e.fromNodeId = k)
    (hgood : ∀ k, ∀ e ∈ (mapGet graph.traversableFrom k).getD [],
      GoodId e.toNodeId)
    (hstart : GoodId startNodeId) (r : PathResult)
    (hok : findPath fuel graph startNodeId endNodeId weights =
      some (Except.ok r)) :
    (∀ i, ∀ hi : i < r.traversedEdges.length,
      ∃ hi1 : i < r.nodeIds.length, ∃ hi2 : i + 1 < r.nodeIds.length,
        (r.traversedEdges.get ⟨i, hi⟩).fromNodeId = r.nodeIds.get ⟨i, hi1⟩ ∧
        (r.traversedEdges.get ⟨i, hi⟩).toNodeId =
          r.nodeIds.get ⟨i + 1, hi2⟩) ∧
    r.totalDistanceMeters =
      (r.traversedEdges.map (fun e => e.lengthMeters)).sum := by
  simp only [findPath] at hok
  have hinv : LoopInv graph weights
      [{ key := createKey startNodeId none
         nodeId := startNodeId
         previousNodeId := none
         cost := 0
         distanceMeters := 0
         parentKey := none
         viaEdge := none }]
      (mapSet [] (createKey startNodeId none) 0)
      (mapSet [] (createKey startNodeId none)
        { key := createKey startNodeId none
          nodeId := startNodeId
          previousNodeId := none
          cost := 0
          distanceMeters := 0
          parentKey := none
          viaEdge := none }) [] 0 := by
    refine ⟨?_, ?_, ?_, ?_, ?_, ?_, ?_, ?_, ?_⟩
    · simp [mapSet]
    · intro st hst
      rcases List.mem_singleton.mp hst with rfl
      exact le_refl 0
    · intro st hst
      rcases List.mem_singleton.mp hst with rfl
      exact ⟨0, by simp [mapSet, mapGet], le_refl 0⟩
    · intro st hst
      rcases List.mem_singleton.mp hst with rfl
      refine ⟨rfl, hstart, ?_⟩
      intro q hq
      exact Option.noConfusion hq
    · intro st hst hstP
      rcases List.mem_singleton.mp hst with rfl
      exact ⟨_, by simp [mapSet, mapGet], le_refl _, Or.inl rfl⟩
    · intro k hk
      simp at hk
    · intro k hk
      simp at hk
    · intro k hk
      simp at hk
    · intro k st2 h
      simp only [mapSet, mapGet] at h
      split_ifs at h with hk
      · rcases Option.some.inj h with rfl
        rcases hk with rfl
        exact ⟨[createKey startNodeId none],
          GoodChain.root (by simp [mapSet, mapGet]) rfl rfl hstart rfl rfl rfl rfl⟩
  obtain ⟨⟨a, c, hpc⟩, hsum⟩ :=
    searchLoop_good graph weights startNodeId endNodeId hrc hfrom hgood fuel
      _ _ _ [] 0 hinv r hok
  exact ⟨fun i hi => hpc.edge_spec i hi, hsum⟩

/-- The concrete result of the A-B-C run, for instantiating C3. -/
noncomputable def resultABC : PathResult :=
  { nodeIds := ["A", "B", "C"]
    traversedEdges := [forwardEdge edgeAB, forwardEdge edgeBC]
    totalDistanceMeters := 150
    totalCost := 310 }

/-- **C3 witness**: the result invariants instantiated on the concrete
A-B-C run of `findPath`. -/
theorem C3_findPath_result_invariants_witness :
    (∀ i, ∀ hi : i < resultABC.traversedEdges.length,
      ∃ hi1 : i < resultABC.nodeIds.length,
      ∃ hi2 : i + 1 < resultABC.nodeIds.length,
        (resultABC.traversedEdges.get ⟨i, hi⟩).fromNodeId =
          resultABC.nodeIds.get ⟨i, hi1⟩ ∧
        (resultABC.traversedEdges.get ⟨i, hi⟩).toNodeId =
          resultABC.nodeIds.get ⟨i + 1, hi2⟩) ∧
    resultABC.totalDistanceMeters =
      (resultABC.traversedEdges.map (fun e => e.lengthMeters)).sum :=
  C3_findPath_result_invariants 5 abcGraph DEFAULT_ROUTE_OBJECTIVE_WEIGHTS "A" "C"
    abc_hrc abc_hfrom abc_hgood ⟨by decide, by decide⟩ resultABC
    (by rw [findPath_abc_eval]; rfl)



/-- Sequential insertion (`new Map(pairs)`) makes every inserted key
retrievable: `mapGet` is `some` for any key that occurs among the pairs or
was already present. -/
lemma foldl_mapSet_isSome {α : Type} :
    ∀ (pairs : List (String × α)) (m : KMap String α) (k : String),
      ((mapGet m k).isSome ∨ k ∈ pairs.map Prod.fst) →
      (mapGet (pairs.foldl (fun m2 p => mapSet m2 p.1 p.2) m) k).isSome := by
  intro pairs
  induction pairs with
  | nil =>
    intro m k h
    rcases h with h | h
    · exact h
    · simp at h
  | cons p rest ih =>
    intro m k h
    show (mapGet (rest.foldl (fun m2 p2 => mapSet m2 p2.1 p2.2)
      (mapSet m p.1 p.2)) k).isSome
    refine ih (mapSet m p.1 p.2) k ?_
    by_cases hp : p.1 = k
    · left
      rw [← hp, mapGet_set_self]
      rfl
    · rcases h with h | h
      · left
        rw [mapGet_set_ne _ _ _ _ (fun hc => hp hc.symm)]
        exact h
      · rw [List.map_cons] at h
        rcases List.mem_cons.mp h with h2 | h2
        · exact absurd h2.symm hp
        · exact Or.inr h2

/-- Appending an edge to its bucket (`addTraversable`) adds exactly that
edge to the multiset of all adjacency values. -/
lemma flatten_addTraversable (m : KMap String (List TraversableEdge))
    (t : TraversableEdge) :
    List.Perm ((mapValues (addTraversable m t)).flatten)
      ((mapValues m).flatten ++ [t]) := by
  unfold addTraversable
  induction m with
  | nil => simp [mapValues, mapSet, mapGet]
  | cons p rest ih =>
    by_cases h : p.1 = t.fromNodeId
    · have hget : mapGet (p :: rest) t.fromNodeId = some p.2 := by
        simp [mapGet, h]
      have hset : mapSet (p :: rest) t.fromNodeId (p.2 ++ [t]) =
          (t.fromNodeId, p.2 ++ [t]) :: rest := by
        simp [mapSet, h]
      rw [hget]
      show List.Perm ((mapValues (mapSet (p :: rest) t.fromNodeId
        ((some p.2).getD [] ++ [t]))).flatten) _
      rw [show ((some p.2).getD [] : List TraversableEdge) = p.2 from rfl, hset]
      show List.Perm ((p.2 ++ [t]) ++ (mapValues rest).flatten)
        ((p.2 ++ (mapValues rest).flatten) ++ [t])
      rw [List.append_assoc, List.append_assoc]
      exact (List.perm_append_comm.append_left p.2).trans
        (List.Perm.refl _)
    · have hget : mapGet (p :: rest) t.fromNodeId = mapGet rest t.fromNodeId := by
        simp [mapGet, h]
      have hset : mapSet (p :: rest) t.fromNodeId
          ((mapGet rest t.fromNodeId).getD [] ++ [t]) =
          p :: mapSet rest t.fromNodeId ((mapGet rest t.fromNodeId).getD [] ++ [t]) := by
        simp [mapSet, h]
      rw [hget, hset]
      show List.Perm (p.2 ++ (mapValues (mapSet rest t.fromNodeId
        ((mapGet rest t.fromNodeId).getD [] ++ [t]))).flatten)
        ((p.2 ++ (mapValues rest).flatten) ++ [t])
      rw [List.append_assoc]
      exact ih.append_left p.2

/-- The edge loop of `createRoadGraph`, started from any accumulator, adds
to the multiset of adjacency values exactly one forward materialization per
edge plus one reverse materialization per bidirectional edge. -/
lemma flatten_buildAdjacency_aux :
    ∀ (edges : List RoadEdge) (m : KMap String (List TraversableEdge)),
      List.Perm
        ((mapValues (edges.foldl
          (fun m2 edge =>
            let m1 := addTraversable m2 (forwardEdge edge)
            if edge.bidirectional then addTraversable m1 (reverseEdge edge) else m1)
          m)).flatten)
        ((mapValues m).flatten ++ edges.flatMap (fun e =>
          forwardEdge e :: (if e.bidirectional then [reverseEdge e] else []))) := by
  intro edges
  induction edges with
  | nil =>
    intro m
    simp
  | cons e rest ih =>
    intro m
    show List.Perm ((mapValues (rest.foldl _
      (if e.bidirectional then addTraversable (addTraversable m (forwardEdge e))
        (reverseEdge e) else addTraversable m (forwardEdge e)))).flatten) _
    refine (ih _).trans ?_
    have hstep : List.Perm
        ((mapValues (if e.bidirectional then
          addTraversable (addTraversable m (forwardEdge e)) (reverseEdge e)
          else addTraversable m (forwardEdge e))).flatten)
        ((mapValues m).flatten ++
          (forwardEdge e :: (if e.bidirectional then [reverseEdge e] else []))) := by
      by_cases hb : e.bidirectional
      · rw [if_pos hb, if_pos hb]
        refine (flatten_addTraversable _ _).trans ?_
        refine ((flatten_addTraversable _ _).append_right [reverseEdge e]).trans ?_
        rw [List.append_assoc]
        exact List.Perm.refl _
      · rw [if_neg hb, if_neg hb]
        exact flatten_addTraversable _ _
    refine (hstep.append_right _).trans ?_
    rw [List.flatMap_cons, ← List.append_assoc]

/-- **C6 counterexample**: `createRoadGraph` performs no referential
validation — built over an empty node list but a nonempty edge list, the
edge's `fromNodeId` has no entry in the node map, refuting the claim's
universally quantified membership statement. -/
theorem C6_createRoadGraph_counterexample :
    edgeAB ∈ [edgeAB] ∧
    mapGet (createRoadGraph [] [edgeAB]).nodes edgeAB.fromNodeId = none := by
  exact ⟨List.mem_singleton.mpr rfl, rfl⟩

/-- **C6 amended**: when every edge endpoint occurs among the input nodes'
ids, every referenced node id resolves in the built node map; and, for every
input whatsoever, the multiset of traversable edges in the adjacency index
is exactly one forward copy per edge plus, for each bidirectional edge, one
reverse copy — the reverse copy having swapped endpoints, negated
`elevationGainMeters`, and all other fields identical. -/
theorem C6_createRoadGraph_amended (nodes : List RoadNode) (edges : List RoadEdge)
    (hend : ∀ e ∈ edges, (∃ n ∈ nodes, n.id = e.fromNodeId) ∧
      (∃ n ∈ nodes, n.id = e.toNodeId)) :
    (∀ e ∈ edges,
      (mapGet (createRoadGraph nodes edges).nodes e.fromNodeId).isSome ∧
      (mapGet (createRoadGraph nodes edges).nodes e.toNodeId).isSome) ∧
    List.Perm ((mapValues (createRoadGraph nodes edges).traversableFrom).flatten)
      (edges.flatMap (fun e =>
        forwardEdge e :: (if e.bidirectional then [reverseEdge e] else []))) ∧
    (∀ e : RoadEdge,
      (reverseEdge e).fromNodeId = (forwardEdge e).toNodeId ∧
      (reverseEdge e).toNodeId = (forwardEdge e).fromNodeId ∧
      (reverseEdge e).elevationGainMeters = -(forwardEdge e).elevationGainMeters ∧
      (reverseEdge e).edgeId = (forwardEdge e).edgeId ∧
      (reverseEdge e).lengthMeters = (forwardEdge e).lengthMeters ∧
      (reverseEdge e).streetName = (forwardEdge e).streetName ∧
      (reverseEdge e).hasSidewalk = (forwardEdge e).hasSidewalk ∧
      (reverseEdge e).litAtNight = (forwardEdge e).litAtNight ∧
      (reverseEdge e).trafficStress = (forwardEdge e).trafficStress) := by
  refine ⟨?_, ?_, ?_⟩
  · intro e he
    obtain ⟨⟨n1, hn1, hid1⟩, ⟨n2, hn2, hid2⟩⟩ := hend e he
    constructor
    · refine foldl_mapSet_isSome _ [] e.fromNodeId (Or.inr ?_)
      rw [List.map_map]
      exact List.mem_map.mpr ⟨n1, hn1, hid1⟩
    · refine foldl_mapSet_isSome _ [] e.toNodeId (Or.inr ?_)
      rw [List.map_map]
      exact List.mem_map.mpr ⟨n2, hn2, hid2⟩
  · refine (flatten_buildAdjacency_aux edges []).trans ?_
    simp [mapValues]
  · intro e
    exact ⟨rfl, rfl, rfl, rfl, rfl, rfl, rfl, rfl, rfl⟩

/-- **C6 witness**: the amended statement instantiated on the two-node,
one-bidirectional-edge graph over `edgeAB`. -/
theorem C6_createRoadGraph_amended_witness :
    (∀ e ∈ [edgeAB],
      (mapGet (createRoadGraph [nodeA, nodeB] [edgeAB]).nodes e.fromNodeId).isSome ∧
      (mapGet (createRoadGraph [nodeA, nodeB] [edgeAB]).nodes e.toNodeId).isSome) ∧
    List.Perm
      ((mapValues (createRoadGraph [nodeA, nodeB] [edgeAB]).traversableFrom).flatten)
      (([edgeAB] : List RoadEdge).flatMap (fun e =>
        forwardEdge e :: (if e.bidirectional then [reverseEdge e] else []))) ∧
    (∀ e : RoadEdge,
      (reverseEdge e).fromNodeId = (forwardEdge e).toNodeId ∧
      (reverseEdge e).toNodeId = (forwardEdge e).fromNodeId ∧
      (reverseEdge e).elevationGainMeters = -(forwardEdge e).elevationGainMeters ∧
      (reverseEdge e).edgeId = (forwardEdge e).edgeId ∧
      (reverseEdge e).lengthMeters = (forwardEdge e).lengthMeters ∧
      (reverseEdge e).streetName = (forwardEdge e).streetName ∧
      (reverseEdge e).hasSidewalk = (forwardEdge e).hasSidewalk ∧
      (reverseEdge e).litAtNight = (forwardEdge e).litAtNight ∧
      (reverseEdge e).trafficStress = (forwardEdge e).trafficStress) := by
  refine C6_createRoadGraph_amended [nodeA, nodeB] [edgeAB] ?_
  intro e he
  rcases List.mem_singleton.mp he with rfl
  exact ⟨⟨nodeA, by simp, nodeA_id⟩, ⟨nodeB, by simp, nodeB_id⟩⟩



/-! ## The budget graph: A - B - C, only the far edge matches the target -/

noncomputable def edgeNear : RoadEdge :=
  { id := "n1", fromNodeId := "A", toNodeId := "B", streetName := "Near"
    lengthMeters := 85, bidirectional := true, hasSidewalk := true
    litAtNight := true, trafficStress := 1, elevationGainMeters := 0 }

noncomputable def edgeFar : RoadEdge :=
  { id := "n2", fromNodeId := "B", toNodeId := "C", streetName := "Far"
    lengthMeters := 85, bidirectional := false, hasSidewalk := true
    litAtNight := true, trafficStress := 1, elevationGainMeters := 0 }

noncomputable def g4 : RoadGraph :=
  createRoadGraph [nodeA, nodeB, nodeC] [edgeNear, edgeFar]

/-- A coverage request with an explicit `maxDistanceMeters` of `0`. -/
noncomputable def reqC4 : CoverageRouteRequest :=
  { name := "budget"
    targetStreets := ["Far"]
    start := ⟨0, 0⟩
    strategy := some Strategy.target_streets
    maxDistanceMeters := some 0 }

lemma g4_nodes : g4.nodes = [("A", nodeA), ("B", nodeB), ("C", nodeC)] := by rfl

lemma g4_trav :
    g4.traversableFrom =
      [("A", [forwardEdge edgeNear]),
        ("B", [reverseEdge edgeNear, forwardEdge edgeFar])] := by rfl

lemma g4_values : mapValues g4.nodes = [nodeA, nodeB, nodeC] := by rfl

lemma uniq_g4 :
    uniqueEdges g4 =
      [forwardEdge edgeNear, reverseEdge edgeNear, forwardEdge edgeFar] := by rfl

lemma fN_from : (forwardEdge edgeNear).fromNodeId = "A" := rfl

lemma fN_to : (forwardEdge edgeNear).toNodeId = "B" := rfl

lemma fN_len : (forwardEdge edgeNear).lengthMeters = 85 := rfl

lemma fN_street : (forwardEdge edgeNear).streetName = "Near" := rfl

lemma rN_from : (reverseEdge edgeNear).fromNodeId = "B" := rfl

lemma rN_to : (reverseEdge edgeNear).toNodeId = "A" := rfl

lemma rN_len : (reverseEdge edgeNear).lengthMeters = 85 := rfl

lemma rN_street : (reverseEdge edgeNear).streetName = "Near" := rfl

lemma fF_from : (forwardEdge edgeFar).fromNodeId = "B" := rfl

lemma fF_to : (forwardEdge edgeFar).toNodeId = "C" := rfl

lemma fF_len : (forwardEdge edgeFar).lengthMeters = 85 := rfl

lemma fF_street : (forwardEdge edgeFar).streetName = "Far" := rfl

lemma cost_fN :
    scoreEdgeTraversal (forwardEdge edgeNear) DEFAULT_ROUTE_OBJECTIVE_WEIGHTS = 85 := by
  unfold scoreEdgeTraversal forwardEdge edgeNear DEFAULT_ROUTE_OBJECTIVE_WEIGHTS
  norm_num

lemma cost_rN :
    scoreEdgeTraversal (reverseEdge edgeNear) DEFAULT_ROUTE_OBJECTIVE_WEIGHTS = 85 := by
  unfold scoreEdgeTraversal reverseEdge forwardEdge edgeNear DEFAULT_ROUTE_OBJECTIVE_WEIGHTS
  norm_num

lemma cost_fF :
    scoreEdgeTraversal (forwardEdge edgeFar) DEFAULT_ROUTE_OBJECTIVE_WEIGHTS = 85 := by
  unfold scoreEdgeTraversal forwardEdge edgeFar DEFAULT_ROUTE_OBJECTIVE_WEIGHTS
  norm_num

/-- Equirectangular distances are nonnegative (the floor of a nonnegative
square root plus one half). -/
lemma distanceMeters_nonneg (a b : Coordinate) : 0 ≤ distanceMeters a b := by
  unfold distanceMeters jsRound
  dsimp only
  have h : (0:ℤ) ≤ ⌊Real.sqrt ((a.lat - b.lat) * 111000 * ((a.lat - b.lat) * 111000) +
      (a.lon - b.lon) * 85000 * ((a.lon - b.lon) * 85000)) + 1 / 2⌋ := by
    rw [Int.le_floor]
    push_cast
    have := Real.sqrt_nonneg ((a.lat - b.lat) * 111000 * ((a.lat - b.lat) * 111000) +
      (a.lon - b.lon) * 85000 * ((a.lon - b.lon) * 85000))
    linarith
  exact_mod_cast h

lemma distanceMeters_self_zero : distanceMeters ⟨0, 0⟩ ⟨0, 0⟩ = 0 := by
  unfold distanceMeters jsRound
  dsimp only
  rw [show ((0:ℝ) - 0) * 111000 * (((0:ℝ) - 0) * 111000) +
    ((0:ℝ) - 0) * 85000 * (((0:ℝ) - 0) * 85000) = 0 by norm_num]
  rw [Real.sqrt_zero]
  rw [show (0:ℝ) + 1 / 2 = 1 / 2 by norm_num]
  rw [show ⌊(1:ℝ) / 2⌋ = 0 by
    rw [Int.floor_eq_zero_iff]
    constructor <;> norm_num]
  norm_num

/-- On the budget graph, the nearest node to the exact location of `A` is
`A` (the other candidates cannot strictly beat distance `0`). -/
lemma nearest_g4 : findNearestNodeId g4 ⟨0, 0⟩ = Except.ok "A" := by
  have h1 : nearestStep ⟨0, 0⟩ ("", none) nodeA = ("A", some 0) := by
    unfold nearestStep
    dsimp only
    rw [show nodeA.coordinate = (⟨0, 0⟩ : Coordinate) from rfl,
      distanceMeters_self_zero, nodeA_id]
  have h2 : nearestStep ⟨0, 0⟩ ("A", some 0) nodeB = ("A", some 0) := by
    unfold nearestStep
    dsimp only
    rw [if_neg (not_lt.mpr (distanceMeters_nonneg _ _))]
  have h3 : nearestStep ⟨0, 0⟩ ("A", some 0) nodeC = ("A", some 0) := by
    unfold nearestStep
    dsimp only
    rw [if_neg (not_lt.mpr (distanceMeters_nonneg _ _))]
  unfold findNearestNodeId
  rw [g4_values]
  rw [List.foldl_cons, h1, List.foldl_cons, h2, List.foldl_cons, h3, List.foldl_nil]
  rfl

/-- Start equal to end succeeds immediately for any positive fuel (shared
form of the immediate-goal observation). -/
lemma findPath_self (graph : RoadGraph) (s : String)
    (weights : RouteObjectiveWeights) (n : ℕ) :
    findPath (n + 1) graph s s weights =
      some (Except.ok
        { nodeIds := [s]
          traversedEdges := []
          totalDistanceMeters := 0
          totalCost := 0 }) := by
  simp [findPath, searchLoop, sortByCost, insertByCost, mapSet, mapGet,
    reconstructPath, reconstructChain]

/-- The concrete search from `A` to `B` on the budget graph. -/
lemma findPath_g4_AB :
    findPath 5 g4 "A" "B" DEFAULT_ROUTE_OBJECTIVE_WEIGHTS =
      some (Except.ok
        { nodeIds := ["A", "B"]
          traversedEdges := [forwardEdge edgeNear]
          totalDistanceMeters := 85
          totalCost := 85 }) := by
  simp [findPath, searchLoop, relaxEdge, relaxCost, pushedState, sortByCost,
    insertByCost, mapSet, mapGet, createKey, reconstructPath, reconstructChain,
    g4_nodes, g4_trav, nodeA_id, nodeB_id, nodeC_id,
    fN_from, fN_to, fN_len, rN_from, rN_to, rN_len, fF_from, fF_to, fF_len,
    cost_fN, cost_rN, cost_fF]

/-- The concrete search from `B` back to `A` on the budget graph. -/
lemma findPath_g4_BA :
    findPath 5 g4 "B" "A" DEFAULT_ROUTE_OBJECTIVE_WEIGHTS =
      some (Except.ok
        { nodeIds := ["B", "A"]
          traversedEdges := [reverseEdge edgeNear]
          totalDistanceMeters := 85
          totalCost := 85 }) := by
  simp [findPath, searchLoop, relaxEdge, relaxCost, pushedState, sortByCost,
    insertByCost, mapSet, mapGet, createKey, reconstructPath, reconstructChain,
    g4_nodes, g4_trav, nodeA_id, nodeB_id, nodeC_id,
    fN_from, fN_to, fN_len, rN_from, rN_to, rN_len, fF_from, fF_to, fF_len,
    cost_fN, cost_rN, cost_fF,
    show ((85:ℝ) ≤ 85) = True by norm_num]



lemma findPath_g4_BB :
    findPath 5 g4 "B" "B" DEFAULT_ROUTE_OBJECTIVE_WEIGHTS =
      some (Except.ok
        { nodeIds := ["B"]
          traversedEdges := []
          totalDistanceMeters := 0
          totalCost := 0 }) :=
  findPath_self g4 "B" DEFAULT_ROUTE_OBJECTIVE_WEIGHTS 4


lemma fN_elev : (forwardEdge edgeNear).elevationGainMeters = 0 := rfl

lemma rN_elev : (reverseEdge edgeNear).elevationGainMeters = 0 := by
  unfold reverseEdge forwardEdge edgeNear
  norm_num

lemma nodeA_coord : nodeA.coordinate = ⟨0, 0⟩ := rfl

lemma nodeB_coord : nodeB.coordinate = ⟨0, 1⟩ := rfl

lemma match_fN : matchesTargetStreet (forwardEdge edgeNear) ["Far"] = false := by rfl

lemma match_rN : matchesTargetStreet (reverseEdge edgeNear) ["Far"] = false := by rfl

lemma match_fF : matchesTargetStreet (forwardEdge edgeFar) ["Far"] = true := by rfl

lemma firstLetter_Far : firstLetter "Far" = some 'F' := by rfl

lemma lower_far : lowerChars "Far" = ['f', 'a', 'r'] := by rfl

lemma lower_near : lowerChars "Near" = ['n', 'e', 'a', 'r'] := by rfl

lemma jsRound_zero : jsRound 0 = 0 := by
  unfold jsRound
  rw [show (0:ℝ) + 1 / 2 = 1 / 2 by norm_num]
  rw [Int.floor_eq_zero_iff]
  constructor <;> norm_num

/-- A one-candidate shortlist is that candidate (no ranking happens). -/
lemma shortlist_singleton (graph : RoadGraph) (c s : String) (st : Strategy)
    (lf : KMap Char ℕ) (usn : KMap (List Char) ℕ) (e : TraversableEdge) :
    shortlistCandidates graph c s st lf usn [e] = [e] := by
  simp [shortlistCandidates, sortScored, insertScored]

/-- A cap of `0` is falsy, so the budget test always passes. -/
lemma withinDistanceBudget_zero (graph : RoadGraph) (d : ℝ) (e : TraversableEdge)
    (c s : String) : withinDistanceBudget graph d e c s (some 0) = true := by
  unfold withinDistanceBudget
  dsimp only
  rw [if_pos rfl]

/-- The full concrete run of the coverage optimizer on the budget graph with
a `maxDistanceMeters` of `0`: three selections anchor at `B`, the walk to
`B` is recorded, and — the cap being falsy — the return path `B → A` is
appended, for a total of 170 m against a "cap" of 0. -/
lemma optimize_g4_eval :
    optimizeCoverageRoute 5 reqC4 g4 =
      some (Except.ok
        { mode := "coverage"
          name := "budget"
          distanceMeters := 170
          segments :=
            [{ fromCoord := ⟨0, 0⟩, toCoord := ⟨0, 1⟩, streetName := some "Near" },
              { fromCoord := ⟨0, 1⟩, toCoord := ⟨0, 0⟩, streetName := some "Near" }]
          coverage := some
            { strategy := Strategy.target_streets
              lettersCovered := ['F']
              lettersRequested := []
              matchedStreetCount := 3
              maxDistanceMeters := some 0
              estimatedElevationGainMeters := 0
              duplicateStreetPenalty := 1
              uniqueStreetCount := 1 } }) := by
  simp [optimizeCoverageRoute, chooseCoverageStrategy, reqC4, nearest_g4, uniq_g4,
    maxSelections, coverageLoop, overBudgetBreak, appendReturn,
    match_fN, match_rN, match_fF, shortlist_singleton, withinDistanceBudget_zero,
    findPath_g4_AB, findPath_g4_BB, findPath_g4_BA,
    firstLetter_Far, lower_far, lower_near,
    distanceOf, fN_len, rN_len, fF_len, fN_street, rN_street, fF_street,
    fN_from, fN_to, rN_from, rN_to, fF_from, fF_to, fN_elev, rN_elev,
    traversalsToSegments, resolveCoordinate, mapGet, mapSet, g4_nodes,
    nodeA_id, nodeB_id, nodeC_id, nodeA_coord, nodeB_coord,
    calculateCoverageQualityMetrics, streetCounts, mapValues, jsRound_zero,
    sortChars, insertChar,
    show (85:ℝ) + 0 = 85 by norm_num,
    show (0:ℝ) + 85 + 85 = 170 by norm_num,
    show (85:ℝ) + 0 + 85 = 170 by norm_num,
    show (85:ℝ) + (85 + 0) = 170 by norm_num,
    show (85:ℝ) + 85 = 170 by norm_num]


noncomputable def routeC4 : GeneratedRouteCore :=
  { mode := "coverage"
    name := "budget"
    distanceMeters := 170
    segments :=
      [{ fromCoord := ⟨0, 0⟩, toCoord := ⟨0, 1⟩, streetName := some "Near" },
        { fromCoord := ⟨0, 1⟩, toCoord := ⟨0, 0⟩, streetName := some "Near" }]
    coverage := some
      { strategy := Strategy.target_streets
        lettersCovered := ['F']
        lettersRequested := []
        matchedStreetCount := 3
        maxDistanceMeters := some 0
        estimatedElevationGainMeters := 0
        duplicateStreetPenalty := 1
        uniqueStreetCount := 1 } }

/-- The optimizer-side equirectangular estimate is nonnegative. -/
lemma approximateDistanceMeters_nonneg (a b : Coordinate) :
    0 ≤ approximateDistanceMeters a b := by
  unfold approximateDistanceMeters jsRound
  dsimp only
  have h : (0:ℤ) ≤ ⌊Real.sqrt ((a.lat - b.lat) * 111000 * ((a.lat - b.lat) * 111000) +
      (a.lon - b.lon) * 85000 * ((a.lon - b.lon) * 85000)) + 1 / 2⌋ := by
    rw [Int.le_floor]
    push_cast
    have := Real.sqrt_nonneg ((a.lat - b.lat) * 111000 * ((a.lat - b.lat) * 111000) +
      (a.lon - b.lon) * 85000 * ((a.lon - b.lon) * 85000))
    linarith
  exact_mod_cast h

/-- The node-pair estimate is nonnegative (missing nodes give `0`). -/
lemma approximateNodeDistanceMeters_nonneg (graph : RoadGraph) (f t : String) :
    0 ≤ approximateNodeDistanceMeters graph f t := by
  unfold approximateNodeDistanceMeters
  split
  · exact approximateDistanceMeters_nonneg _ _
  · exact le_refl 0

lemma mem_insertScored {x y : TraversableEdge × ℝ} :
    ∀ {l : List (TraversableEdge × ℝ)}, x ∈ insertScored y l → x = y ∨ x ∈ l := by
  intro l
  induction l with
  | nil => intro h; simpa [insertScored] using h
  | cons z zs ih =>
    intro h
    unfold insertScored at h
    by_cases hc : y.2 ≤ z.2
    · rw [if_pos hc] at h
      rcases List.mem_cons.mp h with rfl | h
      · exact Or.inl rfl
      · exact Or.inr h
    · rw [if_neg hc] at h
      rcases List.mem_cons.mp h with rfl | h
      · exact Or.inr (List.mem_cons_self _ _)
      · rcases ih h with h1 | h1
        · exact Or.inl h1
        · exact Or.inr (List.mem_cons_of_mem z h1)

lemma mem_sortScored {x : TraversableEdge × ℝ} :
    ∀ {l : List (TraversableEdge × ℝ)}, x ∈ sortScored l → x ∈ l := by
  intro l
  induction l with
  | nil => intro h; simp [sortScored] at h
  | cons z zs ih =>
    intro h
    have h0 : x ∈ insertScored z (sortScored zs) := h
    rcases mem_insertScored h0 with rfl | h1
    · exact List.mem_cons_self _ _
    · exact List.mem_cons_of_mem z (ih h1)

/-- Every shortlisted edge comes from the candidate pool. -/
lemma mem_shortlistCandidates {graph : RoadGraph} {c s : String} {st : Strategy}
    {lf : KMap Char ℕ} {usn : KMap (List Char) ℕ}
    {cands : List TraversableEdge} {e : TraversableEdge}
    (h : e ∈ shortlistCandidates graph c s st lf usn cands) : e ∈ cands := by
  unfold shortlistCandidates at h
  rcases List.mem_map.mp h with ⟨p, hp, rfl⟩
  have hp2 := mem_sortScored (List.mem_of_mem_take hp)
  rcases List.mem_map.mp hp2 with ⟨e2, he2, rfl⟩
  exact he2

/-- With a truthy cap smaller than the edge's length, the budget test
rejects the edge whenever the accumulated distance is nonnegative. -/
lemma withinDistanceBudget_false (graph : RoadGraph) (d : ℝ) (e : TraversableEdge)
    (c s : String) (m : ℝ) (hd : 0 ≤ d) (hm : ¬m = 0)
    (hlen : m < e.lengthMeters) :
    withinDistanceBudget graph d e c s (some m) = false := by
  unfold withinDistanceBudget
  dsimp only
  rw [if_neg hm]
  rw [decide_eq_false]
  have h1 := approximateNodeDistanceMeters_nonneg graph c e.fromNodeId
  have h2 := approximateNodeDistanceMeters_nonneg graph e.toNodeId s
  linarith

/-- When the truthy cap is below every candidate edge length, the greedy
selection loop never selects anything: it returns its input state. -/
lemma coverageLoop_stuck (fuel : ℕ) (graph : RoadGraph) (startNodeId : String)
    (allEdges : List TraversableEdge) (strategy : Strategy)
    (tsn : List String) (m : ℝ) (lf : KMap Char ℕ)
    (hm : ¬m = 0) (hlen : ∀ e ∈ allEdges, m < e.lengthMeters) :
    ∀ (n : ℕ) (st : CovState), 0 ≤ st.currentDistanceMeters →
      coverageLoop fuel graph startNodeId allEdges strategy tsn (some m) lf n st =
        some (Except.ok st) := by
  intro n st hd
  cases n with
  | zero => rfl
  | succ k =>
    show (let candidates := allEdges.filter _
      if candidates.length = 0 then some (Except.ok st) else _) = some (Except.ok st)
    dsimp only
    by_cases hc : (allEdges.filter (fun edge =>
      match strategy with
      | Strategy.alphabet =>
        match firstLetter edge.streetName with
        | some letter => st.remaining.contains letter
        | none => false
      | Strategy.target_streets => matchesTargetStreet edge tsn)).length = 0
    · rw [if_pos hc]
    · rw [if_neg hc]
      split
      · rfl
      · rename_i selectedEdge hFind
        exfalso
        have hmem : selectedEdge ∈ allEdges :=
          (List.mem_filter.mp
            (mem_shortlistCandidates (List.mem_of_find?_eq_some hFind))).1
        have hp := List.find?_some hFind
        rw [withinDistanceBudget_false graph _ _ _ _ m hd hm (hlen _ hmem)] at hp
        exact Bool.false_ne_true hp

/-- **C4 counterexample**: with `maxDistanceMeters = 0` — smaller than (or
equal to no more than) every edge length, all of which are 85 m — the
optimizer still selects anchors, and the falsy cap appends the return path,
yielding 170 m of route against a cap of 0: more than the cap plus any
single edge length. -/
theorem C4_zero_cap_counterexample :
    ∃ r : GeneratedRouteCore,
      optimizeCoverageRoute 5 reqC4 g4 = some (Except.ok r) ∧
      reqC4.maxDistanceMeters = some 0 ∧
      (∀ e ∈ uniqueEdges g4, e.lengthMeters ≤ 85) ∧
      ¬r.distanceMeters ≤ 0 + 85 := by
  refine ⟨routeC4, optimize_g4_eval, rfl, ?_, ?_⟩
  · intro e he
    rw [uniq_g4] at he
    simp only [List.mem_cons, List.not_mem_nil, or_false] at he
    rcases he with rfl | rfl | rfl
    · rw [fN_len]
    · rw [rN_len]
    · rw [fF_len]
  · show ¬(170:ℝ) ≤ 0 + 85
    norm_num

/-- **C4 amended**: for a *positive* cap smaller than every edge length the
claim's intent holds in the strongest form: nothing is ever selected, the
appended return path is the empty start-to-start path, and the resulting
route has `distanceMeters = 0 ≤ cap` and no segments.  (With a cap of `0`
the code treats the budget as absent — JS falsiness — which is what the
counterexample exhibits.) -/
theorem C4_budget_amended (fuel : ℕ) (request : CoverageRouteRequest)
    (graph : RoadGraph) (m : ℝ) (s0 : String) (n : ℕ)
    (hm : request.maxDistanceMeters = some m) (hpos : 0 < m)
    (hlen : ∀ e ∈ uniqueEdges graph, m < e.lengthMeters)
    (hnear : findNearestNodeId graph request.start = Except.ok s0)
    (hfuel : fuel = n + 1) :
    ∃ r : GeneratedRouteCore,
      optimizeCoverageRoute fuel request graph = some (Except.ok r) ∧
      r.distanceMeters = 0 ∧ r.segments = [] ∧ r.distanceMeters ≤ m := by
  have hm0 : ¬m = 0 := fun hc => absurd (hc ▸ hpos) (lt_irrefl 0)
  unfold optimizeCoverageRoute
  rw [hnear]
  dsimp only
  rw [hm]
  rw [coverageLoop_stuck fuel graph s0 (uniqueEdges graph)
    (chooseCoverageStrategy request) request.targetStreets m
    (buildLetterFrequency (uniqueEdges graph)) hm0 hlen _ _ (le_refl 0)]
  dsimp only
  rw [hfuel, findPath_self]
  dsimp only
  have happ : appendReturn (some m) (0 + 0) := by
    unfold appendReturn
    right
    linarith
  rw [if_pos happ]
  refine ⟨_, rfl, ?_, rfl, ?_⟩
  · show distanceOf ([] ++ []) = 0
    simp [distanceOf]
  · show distanceOf ([] ++ []) ≤ m
    simp [distanceOf]
    linarith

/-- **C4 amended witness**: the budget graph with a positive cap of 50 m
(every edge is 85 m): the optimizer returns the empty route of distance
0 ≤ 50. -/
theorem C4_budget_amended_witness :
    ∃ r : GeneratedRouteCore,
      optimizeCoverageRoute 1
        { name := "budget"
          targetStreets := ["Far"]
          start := ⟨0, 0⟩
          strategy := some Strategy.target_streets
          maxDistanceMeters := some 50 } g4 = some (Except.ok r) ∧
      r.distanceMeters = 0 ∧ r.segments = [] ∧ r.distanceMeters ≤ 50 := by
  refine C4_budget_amended 1 _ g4 50 "A" 0 rfl (by norm_num) ?_ nearest_g4 rfl
  intro e he
  rw [uniq_g4] at he
  simp only [List.mem_cons, List.not_mem_nil, or_false] at he
  rcases he with rfl | rfl | rfl
  · rw [fN_len]; norm_num
  · rw [rN_len]; norm_num
  · rw [fF_len]; norm_num



/-- **C9**: the coverage optimizer, modeled on the claims' code path (an
externally supplied graph, the deterministic in-memory search adapter, no
street-catalog dependency), is a pure function of its inputs: two successful
invocations with identical inputs agree on `segments` and `distanceMeters`.
(`GeneratedRouteCore` deliberately omits the route `id` and `createdAtIso`,
which the code derives from randomness and the wall clock.) -/
theorem C9_coverage_deterministic (fuel : ℕ) (request : CoverageRouteRequest)
    (graph : RoadGraph) (r1 r2 : GeneratedRouteCore)
    (h1 : optimizeCoverageRoute fuel request graph = some (Except.ok r1))
    (h2 : optimizeCoverageRoute fuel request graph = some (Except.ok r2)) :
    r1.segments = r2.segments ∧ r1.distanceMeters = r2.distanceMeters := by
  rw [h1] at h2
  rcases Except.ok.inj (Option.some.inj h2) with rfl
  exact ⟨rfl, rfl⟩

/-- **C9 witness**: two identical concrete invocations on the budget graph
produce the same segments and distance. -/
theorem C9_coverage_deterministic_witness :
    routeC4.segments = routeC4.segments ∧
    routeC4.distanceMeters = routeC4.distanceMeters :=
  C9_coverage_deterministic 5 reqC4 g4 routeC4 routeC4
    optimize_g4_eval optimize_g4_eval



/-! ## The key-collision graph

Node ids containing the `"|"` separator make distinct `(node, previous)`
pairs share one composite state key: `createKey "A" (some "B|C")` and
`createKey "A|B" (some "C")` are both `"A|B|C"`.  The node list is left
empty (the search never requires node records; missing coordinates simply
skip the turn term), so every relaxation cost is exactly the edge length. -/

noncomputable def eSB : RoadEdge :=
  { id := "c1", fromNodeId := "S", toNodeId := "B|C", streetName := "x"
    lengthMeters := 10, bidirectional := false, hasSidewalk := true
    litAtNight := true, trafficStress := 1, elevationGainMeters := 0 }

noncomputable def eSC : RoadEdge :=
  { id := "c2", fromNodeId := "S", toNodeId := "C", streetName := "x"
    lengthMeters := 20, bidirectional := false, hasSidewalk := true
    litAtNight := true, trafficStress := 1, elevationGainMeters := 0 }

noncomputable def eBA : RoadEdge :=
  { id := "c3", fromNodeId := "B|C", toNodeId := "A", streetName := "x"
    lengthMeters := 50, bidirectional := false, hasSidewalk := true
    litAtNight := true, trafficStress := 1, elevationGainMeters := 0 }

noncomputable def eCA : RoadEdge :=
  { id := "c4", fromNodeId := "C", toNodeId := "A|B", streetName := "x"
    lengthMeters := 30, bidirectional := false, hasSidewalk := true
    litAtNight := true, trafficStress := 1, elevationGainMeters := 0 }

noncomputable def eAG : RoadEdge :=
  { id := "c5", fromNodeId := "A", toNodeId := "G", streetName := "x"
    lengthMeters := 100, bidirectional := false, hasSidewalk := true
    litAtNight := true, trafficStress := 1, elevationGainMeters := 0 }

noncomputable def collisionGraph : RoadGraph :=
  createRoadGraph [] [eSB, eSC, eBA, eCA, eAG]

lemma coll_nodes : collisionGraph.nodes = [] := by rfl

lemma coll_trav :
    collisionGraph.traversableFrom =
      [("S", [forwardEdge eSB, forwardEdge eSC]),
        ("B|C", [forwardEdge eBA]),
        ("C", [forwardEdge eCA]),
        ("A", [forwardEdge eAG])] := by rfl

lemma cSB_from : (forwardEdge eSB).fromNodeId = "S" := rfl

lemma cSB_to : (forwardEdge eSB).toNodeId = "B|C" := rfl

lemma cSB_len : (forwardEdge eSB).lengthMeters = 10 := rfl

lemma cSC_from : (forwardEdge eSC).fromNodeId = "S" := rfl

lemma cSC_to : (forwardEdge eSC).toNodeId = "C" := rfl

lemma cSC_len : (forwardEdge eSC).lengthMeters = 20 := rfl

lemma cBA_from : (forwardEdge eBA).fromNodeId = "B|C" := rfl

lemma cBA_to : (forwardEdge eBA).toNodeId = "A" := rfl

lemma cBA_len : (forwardEdge eBA).lengthMeters = 50 := rfl

lemma cCA_from : (forwardEdge eCA).fromNodeId = "C" := rfl

lemma cCA_to : (forwardEdge eCA).toNodeId = "A|B" := rfl

lemma cCA_len : (forwardEdge eCA).lengthMeters = 30 := rfl

lemma cAG_from : (forwardEdge eAG).fromNodeId = "A" := rfl

lemma cAG_to : (forwardEdge eAG).toNodeId = "G" := rfl

lemma cAG_len : (forwardEdge eAG).lengthMeters = 100 := rfl

lemma cost_cSB :
    scoreEdgeTraversal (forwardEdge eSB) DEFAULT_ROUTE_OBJECTIVE_WEIGHTS = 10 := by
  unfold scoreEdgeTraversal forwardEdge eSB DEFAULT_ROUTE_OBJECTIVE_WEIGHTS
  norm_num

lemma cost_cSC :
    scoreEdgeTraversal (forwardEdge eSC) DEFAULT_ROUTE_OBJECTIVE_WEIGHTS = 20 := by
  unfold scoreEdgeTraversal forwardEdge eSC DEFAULT_ROUTE_OBJECTIVE_WEIGHTS
  norm_num

lemma cost_cBA :
    scoreEdgeTraversal (forwardEdge eBA) DEFAULT_ROUTE_OBJECTIVE_WEIGHTS = 50 := by
  unfold scoreEdgeTraversal forwardEdge eBA DEFAULT_ROUTE_OBJECTIVE_WEIGHTS
  norm_num

lemma cost_cCA :
    scoreEdgeTraversal (forwardEdge eCA) DEFAULT_ROUTE_OBJECTIVE_WEIGHTS = 30 := by
  unfold scoreEdgeTraversal forwardEdge eCA DEFAULT_ROUTE_OBJECTIVE_WEIGHTS
  norm_num

lemma cost_cAG :
    scoreEdgeTraversal (forwardEdge eAG) DEFAULT_ROUTE_OBJECTIVE_WEIGHTS = 100 := by
  unfold scoreEdgeTraversal forwardEdge eAG DEFAULT_ROUTE_OBJECTIVE_WEIGHTS
  norm_num

/-- The full collision run.  The state at `A` reached via `B|C` (cost 60)
and the cheaper state at `A|B` reached via `C` (cost 50) share the key
`"A|B|C"`; the second push overwrites the state-map entry, so when the
stale 60-cost pop relaxes `A → G`, the pushed goal state's back pointer
`"A|B|C"` now resolves to the `A|B` state.  Reconstruction stitches the
two unrelated paths together: `nodeIds = [S, C, A|B, G]` with the final
edge leaving `A`, and a recorded distance of 160 against edges summing
to 150. -/
lemma findPath_collision_eval :
    findPath 6 collisionGraph "S" "G" DEFAULT_ROUTE_OBJECTIVE_WEIGHTS =
      some (Except.ok
        { nodeIds := ["S", "C", "A|B", "G"]
          traversedEdges := [forwardEdge eSC, forwardEdge eCA, forwardEdge eAG]
          totalDistanceMeters := 160
          totalCost := 160 }) := by
  simp [findPath, searchLoop, relaxEdge, relaxCost, pushedState, sortByCost,
    insertByCost, mapSet, mapGet, createKey, reconstructPath, reconstructChain,
    coll_nodes, coll_trav,
    cSB_from, cSB_to, cSB_len, cSC_from, cSC_to, cSC_len,
    cBA_from, cBA_to, cBA_len, cCA_from, cCA_to, cCA_len,
    cAG_from, cAG_to, cAG_len,
    cost_cSB, cost_cSC, cost_cBA, cost_cCA, cost_cAG,
    show (10:ℝ) + 50 = 60 by norm_num,
    show (20:ℝ) + 30 = 50 by norm_num,
    show (60:ℝ) + 100 = 160 by norm_num,
    show ((10:ℝ) ≤ 20) = True by norm_num,
    show ((20:ℝ) ≤ 60) = True by norm_num,
    show ((60:ℝ) ≤ 50) = False by norm_num]

/-- **C3 counterexample**: the claim is unconditional over graphs, but with
node ids containing the key separator `"|"` the composite string keys of
distinct `(node, previous)` pairs collide: a cheaper colliding state
overwrites the state-map entry, a stale pop re-parents the chain through
it, and the returned `PathResult` violates both claimed invariants — its
third edge leaves node `"A"` while `nodeIds` has `"A|B"` in that position,
and `totalDistanceMeters = 160` while the traversed edges sum to 150. -/
theorem C3_collision_counterexample :
    ∃ r : PathResult,
      findPath 6 collisionGraph "S" "G" DEFAULT_ROUTE_OBJECTIVE_WEIGHTS =
        some (Except.ok r) ∧
      ¬r.totalDistanceMeters =
        (r.traversedEdges.map (fun e => e.lengthMeters)).sum ∧
      ∃ hi : 2 < r.traversedEdges.length, ∃ hi1 : 2 < r.nodeIds.length,
        ¬(r.traversedEdges.get ⟨2, hi⟩).fromNodeId = r.nodeIds.get ⟨2, hi1⟩ := by
  refine ⟨_, findPath_collision_eval, ?_, by norm_num, by norm_num, ?_⟩
  · show ¬(160:ℝ) = (([forwardEdge eSC, forwardEdge eCA, forwardEdge eAG]).map
      (fun e => e.lengthMeters)).sum
    rw [List.map_cons, List.map_cons, List.map_cons, List.map_nil,
      cSC_len, cCA_len, cAG_len]
    norm_num
  · show ¬(forwardEdge eAG).fromNodeId = "A|B"
    rw [cAG_from]
    simp


end RouteGlyph
